import Mathlib

/-!
# Verification of the Mini Compiler front-end

Shallow embedding of the compiler pipeline (lexer, parser, semantic
analyzer, TAC generator and local optimizer) of the repository, together
with proofs and refutations of the specification's claims.

Modelling conventions:
* Python `int`/`float` values are embedded as `PyNum` with `float`
  represented by an exact rational; the claims proved here never depend
  on floating-point rounding.
* Python string formatting of numbers is mirrored by `Nat.repr`
  (identical decimal output for naturals).
* Python exceptions become `Except` results; each stage is a function.
-/

/-! ## Decimal representation: `Nat.repr` is injective -/

/-- Decimal digit list of a natural number, most significant first. -/
def natDigits (n : ℕ) : List Char :=
  if _h : n < 10 then [Nat.digitChar n]
  else natDigits (n / 10) ++ [Nat.digitChar (n % 10)]
  termination_by n
  decreasing_by exact Nat.div_lt_self (by omega) (by omega)

theorem natDigits_eq_of_lt {n : ℕ} (h : n < 10) : natDigits n = [Nat.digitChar n] := by
  rw [natDigits]; simp [h]

theorem natDigits_eq_of_ge {n : ℕ} (h : ¬ n < 10) :
    natDigits n = natDigits (n / 10) ++ [Nat.digitChar (n % 10)] := by
  rw [natDigits]; simp [h]

/-- Value of a decimal digit list (inverse of `natDigits`). -/
def digitsVal (l : List Char) : ℕ :=
  l.foldl (fun a c => 10 * a + (c.toNat - 48)) 0

theorem digitChar_toNat {n : ℕ} (h : n < 10) : (Nat.digitChar n).toNat = 48 + n := by
  interval_cases n <;> rfl

theorem digitsVal_append_digit (l : List Char) (c : Char) :
    digitsVal (l ++ [c]) = 10 * digitsVal l + (c.toNat - 48) := by
  simp [digitsVal, List.foldl_append]

theorem digitsVal_natDigits (n : ℕ) : digitsVal (natDigits n) = n := by
  induction n using Nat.strong_induction_on with
  | _ n ih =>
    by_cases h : n < 10
    · rw [natDigits_eq_of_lt h]
      simp [digitsVal, digitChar_toNat h]
    · rw [natDigits_eq_of_ge h, digitsVal_append_digit,
        ih (n / 10) (Nat.div_lt_self (by omega) (by omega)),
        digitChar_toNat (Nat.mod_lt _ (by omega))]
      omega

theorem natDigits_injective : Function.Injective natDigits := by
  intro m n h
  have := digitsVal_natDigits m
  rw [h, digitsVal_natDigits] at this
  omega

theorem toDigitsCore_eq (f n : ℕ) (acc : List Char) (h : n < f) :
    Nat.toDigitsCore 10 f n acc = natDigits n ++ acc := by
  induction f generalizing n acc with
  | zero => omega
  | succ f ih =>
    rw [Nat.toDigitsCore]
    by_cases h10 : n / 10 = 0
    · have hn : n < 10 := by omega
      simp only [h10, if_true]
      rw [natDigits_eq_of_lt hn, Nat.mod_eq_of_lt hn]
      simp
    · simp only [h10, if_false]
      have hlt : n / 10 < n := Nat.div_lt_self (by omega) (by omega)
      rw [ih (n / 10) _ (by omega)]
      conv_rhs => rw [natDigits_eq_of_ge (show ¬ n < 10 by omega)]
      simp

theorem Nat_repr_eq_natDigits (n : ℕ) : Nat.repr n = (natDigits n).asString := by
  show (Nat.toDigits 10 n).asString = _
  rw [Nat.toDigits, toDigitsCore_eq _ _ _ (by omega)]
  simp

theorem Nat_repr_injective : Function.Injective Nat.repr := by
  intro m n h
  rw [Nat_repr_eq_natDigits, Nat_repr_eq_natDigits] at h
  have : (natDigits m).asString.data = (natDigits n).asString.data := by rw [h]
  simp only [List.asString] at this
  exact natDigits_injective this

theorem digitChar_isDigit {n : ℕ} (h : n < 10) : (Nat.digitChar n).isDigit = true := by
  interval_cases n <;> rfl

theorem natDigits_all_isDigit (n : ℕ) : (natDigits n).all Char.isDigit = true := by
  induction n using Nat.strong_induction_on with
  | _ n ih =>
    by_cases h : n < 10
    · rw [natDigits_eq_of_lt h]; simp [digitChar_isDigit h]
    · rw [natDigits_eq_of_ge h]
      simp only [List.all_append, Bool.and_eq_true]
      exact ⟨ih (n / 10) (Nat.div_lt_self (by omega) (by omega)),
        by simp [digitChar_isDigit (Nat.mod_lt _ (by omega))]⟩

/-! ## Python numbers (`intermediate.py` constant folding operands)

Python `int`/`float` values. A Python float is modelled as an exact
(unnormalized) fraction of integers; the claims proved here never
depend on floating-point rounding. String parsing mirrors `int(s)` /
`float(s)` restricted to the sign-and-digits numeral shapes that occur
as TAC operands (no whitespace, underscores or exponent forms). -/

structure PyFloat where
  num : ℤ
  den : ℤ
  deriving DecidableEq, Repr

inductive PyNum where
  | int (n : ℤ)
  | float (f : PyFloat)
  deriving DecidableEq, Repr

def PyNum.toFrac : PyNum → PyFloat
  | .int n => ⟨n, 1⟩
  | .float f => f

/-- Python numeric comparison with `0` (`right != 0` in the folding
pass compares `int` and `float` numerically). -/
def PyNum.isZero : PyNum → Bool
  | .int n => n = 0
  | .float f => f.num = 0

-- `c in s` on a Python string (list-based so the kernel can evaluate it)
def strContains (s : String) (c : Char) : Bool := s.data.contains c

-- `s.startswith(c)` for a single-character pattern
def strStartsWith1 (s : String) (c : Char) : Bool :=
  match s.data with
  | x :: _ => x = c
  | [] => false

def digitsToNat? (l : List Char) : Option ℕ :=
  if l ≠ [] ∧ l.all Char.isDigit then some (digitsVal l) else none

/-- Python `int(s)`: optional sign followed by digits. -/
def pyIntParse (s : String) : Option ℤ :=
  match s.data with
  | '-' :: rest => (digitsToNat? rest).map (fun n => -(n : ℤ))
  | '+' :: rest => (digitsToNat? rest).map (fun n => (n : ℤ))
  | l => (digitsToNat? l).map (fun n => (n : ℤ))

/-- Python `float(s)` for numerals containing a decimal point:
optional sign, digits, one `'.'`, digits, with at least one digit;
the value `ip.frac` becomes the fraction `(ip*10^k + frac) / 10^k`. -/
def pyFloatParse (s : String) : Option PyFloat :=
  let core : List Char → Option PyFloat := fun l =>
    let intPart := l.takeWhile (· ≠ '.')
    let rest := l.dropWhile (· ≠ '.')
    match rest with
    | '.' :: frac =>
      if (intPart ≠ [] ∨ frac ≠ []) ∧ intPart.all Char.isDigit ∧ frac.all Char.isDigit ∧
          ¬ frac.contains '.' then
        some ⟨(digitsVal intPart : ℤ) * 10 ^ frac.length + (digitsVal frac : ℤ),
          (10 : ℤ) ^ frac.length⟩
      else none
    | _ => none
  match s.data with
  | '-' :: rest => (core rest).map (fun f => ⟨-f.num, f.den⟩)
  | '+' :: rest => core rest
  | l => core l

/-- `float(x) if '.' in x else int(x)` from `_constant_folding`. -/
def pyNumParse (s : String) : Option PyNum :=
  if strContains s '.' then (pyFloatParse s).map PyNum.float
  else (pyIntParse s).map PyNum.int

/-- Python arithmetic with int/float promotion. -/
def pyAdd : PyNum → PyNum → PyNum
  | .int a, .int b => .int (a + b)
  | a, b => .float ⟨a.toFrac.num * b.toFrac.den + b.toFrac.num * a.toFrac.den,
      a.toFrac.den * b.toFrac.den⟩

def pySub : PyNum → PyNum → PyNum
  | .int a, .int b => .int (a - b)
  | a, b => .float ⟨a.toFrac.num * b.toFrac.den - b.toFrac.num * a.toFrac.den,
      a.toFrac.den * b.toFrac.den⟩

def pyMul : PyNum → PyNum → PyNum
  | .int a, .int b => .int (a * b)
  | a, b => .float ⟨a.toFrac.num * b.toFrac.num, a.toFrac.den * b.toFrac.den⟩

/-- Python `/` is true division and always yields a float. -/
def pyDiv (a b : PyNum) : PyNum :=
  .float ⟨a.toFrac.num * b.toFrac.den, a.toFrac.den * b.toFrac.num⟩

/-- Fractional decimal digits of `rem / den` by long division, up to
`fuel` places. -/
def fracDigits : ℕ → ℕ → ℕ → List Char
  | 0, _, _ => []
  | fuel + 1, rem, den =>
    let r := rem * 10
    Nat.digitChar (r / den) :: fracDigits fuel (r % den) den

/-- Python `str` on a float, abstracted: sign, integer part, `'.'` and
the exact decimal expansion of the fractional part up to 17 places with
trailing zeros trimmed (agrees with Python on the short terminating
decimals produced by folding small literals). -/
def pyFloatRepr (f : PyFloat) : String :=
  let sign := if (f.num < 0) ≠ (f.den < 0) ∧ f.num ≠ 0 then "-" else ""
  let n := f.num.natAbs
  let d := f.den.natAbs
  let ip := n / d
  let frac := (fracDigits 17 (n % d) d).reverse.dropWhile (· = '0') |>.reverse
  let fracStr := if frac = [] then "0" else frac.asString
  sign ++ Nat.repr ip ++ "." ++ fracStr

/-- Python `str` of a number. -/
def pyStr : PyNum → String
  | .int n => if n < 0 then "-" ++ Nat.repr n.natAbs else Nat.repr n.natAbs
  | .float f => pyFloatRepr f

/-! ## TAC instructions (`intermediate.py`) -/

inductive TACInstruction where
  | print (value : String)
  | assignment (target : String) (source : String)
  | binaryOperation (target : String) (left : String) ( operator : String) (right : String)
  | unaryOperation (target : String) ( operator : String) (operand : String)
  | label (name : String)
  | jump (target : String)
  | conditionalJump (condition : String) (target : String)
  deriving DecidableEq, Repr

/-- Write target of an `Assignment`/`BinaryOperation`/`UnaryOperation`
(the instruction kinds inspected by dead-code elimination). -/
def targetOf? : TACInstruction → Option String
  | .assignment t _ => some t
  | .binaryOperation t _ _ _ => some t
  | .unaryOperation t _ _ => some t
  | _ => none

/-! ### Constant folding (`_constant_folding`) -/

/-- One step of `_constant_folding` on a single instruction: a
`BinaryOperation` whose operands both parse as numerals is rewritten in
place to an `Assignment` of the computed value; `/` by a zero numeral
and non-arithmetic operators are left untouched. -/
def foldInstruction (inst : TACInstruction) : TACInstruction :=
  match inst with
  | .binaryOperation target left op right =>
    match pyNumParse left, pyNumParse right with
    | some l, some r =>
      let result : Option PyNum :=
        if op = "+" then some (pyAdd l r)
        else if op = "-" then some (pySub l r)
        else if op = "*" then some (pyMul l r)
        else if op = "/" then
          if ¬ r.isZero then some (pyDiv l r) else none
        else none
      match result with
      | some v => .assignment target (pyStr v)
      | none => inst
    | _, _ => inst
  | _ => inst

/-- `_constant_folding`: the in-place rewriting loop is a map over the
instruction list. -/
def constantFolding (l : List TACInstruction) : List TACInstruction :=
  l.map foldInstruction

/-! ### Dead-code elimination (`_dead_code_elimination`) -/

/-- The `used_vars` set: write targets of
`Assignment`/`BinaryOperation`/`UnaryOperation` instructions that do
not start with `'t'` (the Python set is modelled as a list used only
through membership). -/
def usedVars (l : List TACInstruction) : List String :=
  l.filterMap fun inst =>
    match targetOf? inst with
    | some t => if strStartsWith1 t 't' then none else some t
    | none => none

/-- `_dead_code_elimination`: drop targeted instructions whose target
starts with `'t'` and is not in `used_vars`. -/
def deadCodeElimination (l : List TACInstruction) : List TACInstruction :=
  let used := usedVars l
  l.filter fun inst =>
    match targetOf? inst with
    | some t => !(strStartsWith1 t 't' && !used.contains t)
    | none => true

/-- The reserved temporary naming scheme of the generator: `'t'`
followed by decimal digits. -/
def isCompilerTempName (s : String) : Bool :=
  match s.data with
  | 't' :: rest => rest ≠ [] && rest.all Char.isDigit
  | _ => false


/-! ## Tokens (`lexer.py`) -/

inductive TokenType where
  | PROGRAM | VAR | INTEGER | FLOAT | IF | ELSE | WHILE | PRINT
  | PLUS | MINUS | MULTIPLY | DIVIDE | ASSIGN
  | EQUALS | NOT_EQUALS | LESS_THAN | GREATER_THAN
  | LESS_THAN_OR_EQUAL | GREATER_THAN_OR_EQUAL
  | LPAREN | RPAREN | LBRACE | RBRACE | SEMICOLON
  | IDENTIFIER | INTEGER_LITERAL | FLOAT_LITERAL | EOF
  deriving DecidableEq, Repr

/-- `str(TokenType.X)` as Python prints it in error messages. -/
def typeStr : TokenType → String
  | .PROGRAM => "TokenType.PROGRAM"
  | .VAR => "TokenType.VAR"
  | .INTEGER => "TokenType.INTEGER"
  | .FLOAT => "TokenType.FLOAT"
  | .IF => "TokenType.IF"
  | .ELSE => "TokenType.ELSE"
  | .WHILE => "TokenType.WHILE"
  | .PRINT => "TokenType.PRINT"
  | .PLUS => "TokenType.PLUS"
  | .MINUS => "TokenType.MINUS"
  | .MULTIPLY => "TokenType.MULTIPLY"
  | .DIVIDE => "TokenType.DIVIDE"
  | .ASSIGN => "TokenType.ASSIGN"
  | .EQUALS => "TokenType.EQUALS"
  | .NOT_EQUALS => "TokenType.NOT_EQUALS"
  | .LESS_THAN => "TokenType.LESS_THAN"
  | .GREATER_THAN => "TokenType.GREATER_THAN"
  | .LESS_THAN_OR_EQUAL => "TokenType.LESS_THAN_OR_EQUAL"
  | .GREATER_THAN_OR_EQUAL => "TokenType.GREATER_THAN_OR_EQUAL"
  | .LPAREN => "TokenType.LPAREN"
  | .RPAREN => "TokenType.RPAREN"
  | .LBRACE => "TokenType.LBRACE"
  | .RBRACE => "TokenType.RBRACE"
  | .SEMICOLON => "TokenType.SEMICOLON"
  | .IDENTIFIER => "TokenType.IDENTIFIER"
  | .INTEGER_LITERAL => "TokenType.INTEGER_LITERAL"
  | .FLOAT_LITERAL => "TokenType.FLOAT_LITERAL"
  | .EOF => "TokenType.EOF"

/-- A lexer token; positions are integers because the parser
synthesizes tokens with position `-1`. -/
structure Token where
  type : TokenType
  value : String
  line : ℤ
  column : ℤ
  deriving DecidableEq, Repr

/-! ## AST (`parser.py`) -/

structure VarDeclaration where
  name : String
  type : String
  line : ℤ
  column : ℤ
  deriving DecidableEq, Repr

inductive Expr where
  | binaryOp (left : Expr) (opTok : Token) (right : Expr) (line column : ℤ)
  | unaryOp (opTok : Token) (operand : Expr) (line column : ℤ)
  | literal (value : PyNum) (line column : ℤ)
  | identifier (name : String) (line column : ℤ)
  deriving DecidableEq, Repr

inductive Stmt where
  -- the `variable` field of `AssignmentStmt` (a Lean keyword) is named `varName`
  | assignmentStmt (varName : String) (expression : Expr) (line column : ℤ)
  | ifStmt (condition : Expr) (thenBlock : List Stmt)
      (elifBlocks : List (Expr × List Stmt)) (elseBlock : Option (List Stmt))
      (line column : ℤ)
  | whileStmt (condition : Expr) (body : List Stmt) (line column : ℤ)
  | printStmt (expression : Expr) (line column : ℤ)

structure Program where
  declarations : List VarDeclaration
  statements : List Stmt

/-! ## IR generator (`intermediate.py`, `IntermediateCodeGenerator`) -/

structure GenState where
  instructions : List TACInstruction
  tempCounter : ℕ
  labelCounter : ℕ
  -- the generator's `variables` dict (written by `visit_declaration`, never read)
  vars : List (String × String)
  deriving DecidableEq, Repr

def GenState.emit (s : GenState) (i : TACInstruction) : GenState :=
  { s with instructions := s.instructions ++ [i] }

/-- `new_temp`: `f"t{self.temp_counter}"`, counter incremented. -/
def newTemp (s : GenState) : String × GenState :=
  ("t" ++ Nat.repr s.tempCounter, { s with tempCounter := s.tempCounter + 1 })

/-- `new_label`: `f"L{self.label_counter}"`, counter incremented. -/
def newLabel (s : GenState) : String × GenState :=
  ("L" ++ Nat.repr s.labelCounter, { s with labelCounter := s.labelCounter + 1 })

/-- `visit_expression`: lowers an expression, returning the result
reference (immediate numeral text, variable name or temporary). -/
def genExpr : Expr → GenState → String × GenState
  | .binaryOp l opTok r _ _, s =>
    let (lr, s1) := genExpr l s
    let (rr, s2) := genExpr r s1
    let (t, s3) := newTemp s2
    (t, s3.emit (.binaryOperation t lr opTok.value rr))
  | .unaryOp opTok e _ _, s =>
    let (er, s1) := genExpr e s
    let (t, s2) := newTemp s1
    (t, s2.emit (.unaryOperation t opTok.value er))
  | .literal v _ _, s => (pyStr v, s)
  | .identifier n _ _, s => (n, s)

mutual

/-- `visit_statement` dispatch plus the per-statement visitors. -/
def genStmt : Stmt → GenState → GenState
  | .assignmentStmt v e _ _, s =>
    let (r, s1) := genExpr e s
    s1.emit (.assignment v r)
  | .ifStmt cond thenB elifs elseB _ _, s =>
    let (condR, s1) := genExpr cond s
    let (elseL, s2) := newLabel s1
    let (endL, s3) := newLabel s2
    let s4 := s3.emit (.conditionalJump ("not " ++ condR) elseL)
    let s5 := genStmts thenB s4
    let s6 := s5.emit (.jump endL)
    let (finalElse, s7) := genElifs elifs endL elseL s6
    let s8 := s7.emit (.label finalElse)
    -- `if node.else_block:` — Python truthiness; an empty else list
    -- behaves like `None`, and `genStmts [] = id` matches that
    let s9 := match elseB with
      | some b => genStmts b s8
      | none => s8
    s9.emit (.label endL)
  | .whileStmt cond body _ _, s =>
    let (startL, s1) := newLabel s
    let (endL, s2) := newLabel s1
    let s3 := s2.emit (.label startL)
    let (condR, s4) := genExpr cond s3
    let s5 := s4.emit (.conditionalJump ("not " ++ condR) endL)
    let s6 := genStmts body s5
    let s7 := s6.emit (.jump startL)
    s7.emit (.label endL)
  | .printStmt e _ _, s =>
    let (r, s1) := genExpr e s
    s1.emit (.print r)

def genStmts : List Stmt → GenState → GenState
  | [], s => s
  | st :: rest, s => genStmts rest (genStmt st s)

/-- The elif loop of `visit_if_statement`: takes the end label and the
pending else label, returns the final else label (whose `Label` the
caller emits). -/
def genElifs : List (Expr × List Stmt) → String → String → GenState → String × GenState
  | [], _, elseL, s => (elseL, s)
  | (cond, body) :: rest, endL, elseL, s =>
    let s1 := s.emit (.label elseL)
    let (newElse, s2) := newLabel s1
    let (condR, s3) := genExpr cond s2
    let s4 := s3.emit (.conditionalJump ("not " ++ condR) newElse)
    let s5 := genStmts body s4
    let s6 := s5.emit (.jump endL)
    genElifs rest endL newElse s6

end

/-- `visit_declaration`: records the variable's type, emits nothing. -/
def genDecls : List VarDeclaration → GenState → GenState
  | [], s => s
  | d :: rest, s => genDecls rest { s with vars := s.vars ++ [(d.name, d.type)] }

def initGenState : GenState := ⟨[], 0, 0, []⟩

/-- `generate`: the pre-optimization TAC sequence of a program. -/
def generateProgram (p : Program) : List TACInstruction :=
  (genStmts p.statements (genDecls p.declarations initGenState)).instructions

/-- `optimize`: constant folding then dead-code elimination. -/
def optimizePasses (l : List TACInstruction) : List TACInstruction :=
  deadCodeElimination (constantFolding l)

/-! ## Semantic analyzer (`semantic.py`)

`SemanticError` in the source is `class SemanticError(Exception): pass`
— it carries nothing but a message string, so semantic errors are
embedded as plain `String` values (positions appear only interpolated
into the message text). -/

-- the source's `Symbol` class (`Symbol` itself is taken in this environment)
structure VarSymbol where
  name : String
  type : String
  line : ℤ
  column : ℤ
  deriving DecidableEq, Repr

/-- The symbol table's `symbols` dict (unique keys, first-match lookup). -/
abbrev SymbolTable := List (String × VarSymbol)

/-- `SymbolTable.declare`. -/
def declareVar (st : SymbolTable) (name type_ : String) (line column : ℤ) :
    Except String SymbolTable :=
  match st.find? (fun p => p.1 == name) with
  | some p =>
    .error ("Variable '" ++ name ++ "' already declared at line " ++ p.2.line.repr ++
      ", column " ++ p.2.column.repr)
  | none => .ok (st ++ [(name, ⟨name, type_, line, column⟩)])

/-- `SymbolTable.lookup`. -/
def lookupVar (st : SymbolTable) (name : String) (line column : ℤ) :
    Except String VarSymbol :=
  match st.find? (fun p => p.1 == name) with
  | some p => .ok p.2
  | none =>
    .error ("Undefined variable '" ++ name ++ "' at line " ++ line.repr ++
      ", column " ++ column.repr)

/-- `visit_expression`: infer the type name of an expression
(`"bombardino"` = integer, `"crocodilo"` = float, `"boolean"`). -/
def visitExpression (st : SymbolTable) : Expr → Except String String
  | .binaryOp l opTok r line column => do
    let lt ← visitExpression st l
    let rt ← visitExpression st r
    if opTok.type ∈ [TokenType.PLUS, .MINUS, .MULTIPLY, .DIVIDE] then
      if lt ≠ rt then
        .error ("Type mismatch in binary operation at line " ++ line.repr ++
          ", column " ++ column.repr ++ ". Cannot operate on " ++ lt ++ " and " ++ rt)
      else .ok lt
    else if opTok.type ∈ [TokenType.EQUALS, .NOT_EQUALS, .LESS_THAN, .GREATER_THAN,
        .LESS_THAN_OR_EQUAL, .GREATER_THAN_OR_EQUAL] then
      if lt ≠ rt then
        .error ("Type mismatch in comparison at line " ++ line.repr ++
          ", column " ++ column.repr ++ ". Cannot compare " ++ lt ++ " and " ++ rt)
      else .ok "boolean"
    else
      .error ("Unknown operator " ++ typeStr opTok.type ++ " at line " ++ line.repr ++
        ", column " ++ column.repr)
  | .unaryOp opTok e line column => do
    let t ← visitExpression st e
    if opTok.type ∈ [TokenType.PLUS, .MINUS] then
      if t ∉ ["bombardino", "crocodilo"] then
        .error ("Invalid type for unary operator at line " ++ line.repr ++
          ", column " ++ column.repr ++ ". Expected number, got " ++ t)
      else .ok t
    else
      .error ("Unknown unary operator " ++ typeStr opTok.type ++ " at line " ++
        line.repr ++ ", column " ++ column.repr)
  | .literal v _ _ =>
    match v with
    | .int _ => .ok "bombardino"
    | .float _ => .ok "crocodilo"
  | .identifier n line column => do
    let sym ← lookupVar st n line column
    .ok sym.type

mutual

/-- `visit_statement` dispatch plus the per-statement checks. Note
that `visit_if_statement` examines the condition, the then block and
the else block but never `elif_blocks`, exactly as in the source. -/
def visitStatement (st : SymbolTable) : Stmt → Except String Unit
  | .assignmentStmt v e line column => do
    let sym ← lookupVar st v line column
    let et ← visitExpression st e
    if sym.type ≠ et then
      .error ("Type mismatch in assignment at line " ++ line.repr ++ ", column " ++
        column.repr ++ ". Expected " ++ sym.type ++ ", got " ++ et)
    else .ok ()
  | .ifStmt cond thenB _elifs elseB line column => do
    let ct ← visitExpression st cond
    if ct ≠ "boolean" then
      .error ("Condition must be boolean at line " ++ line.repr ++ ", column " ++
        column.repr)
    else do
      visitStatements st thenB
      -- `if node.else_block:` — empty list behaves like `None`, and
      -- `visitStatements st [] = .ok ()` matches that
      match elseB with
      | some b => visitStatements st b
      | none => .ok ()
  | .whileStmt cond body line column => do
    let ct ← visitExpression st cond
    if ct ≠ "boolean" then
      .error ("Condition must be boolean at line " ++ line.repr ++ ", column " ++
        column.repr)
    else visitStatements st body
  | .printStmt e _ _ => do
    let _ ← visitExpression st e
    .ok ()

def visitStatements (st : SymbolTable) : List Stmt → Except String Unit
  | [] => .ok ()
  | stm :: rest => do
    visitStatement st stm
    visitStatements st rest

end

def declareAll : List VarDeclaration → SymbolTable → Except String SymbolTable
  | [], st => .ok st
  | d :: rest, st => do
    let st' ← declareVar st d.name d.type d.line d.column
    declareAll rest st'

/-- `analyze`: register every declaration, then validate every
statement. -/
def analyze (p : Program) : Except String Unit := do
  let st ← declareAll p.declarations []
  visitStatements st p.statements

/-! ## Lexer (`lexer.py`)

`current_char` is `None` exactly when the position has passed the end
of the source, so the `while self.current_char ...` loops are embedded
as recursion guarded by a position bound. -/

structure LexicalError where
  message : String
  line : ℤ
  column : ℤ
  deriving DecidableEq, Repr

structure LexState where
  source : List Char
  position : ℕ
  line : ℤ
  column : ℤ
  deriving DecidableEq, Repr

/-- `current_char` as an option. -/
def currentChar (s : LexState) : Option Char := s.source.get? s.position

def peekChar (s : LexState) : Option Char := s.source.get? (s.position + 1)

/-- `advance`: position and column advance; passing a newline (while
more input remains) bumps the line and resets the column. -/
def advance (s : LexState) : LexState :=
  if s.position + 1 ≥ s.source.length then
    { s with position := s.position + 1, column := s.column + 1 }
  else if currentChar s = some '\n' then
    { s with position := s.position + 1, line := s.line + 1, column := 1 }
  else
    { s with position := s.position + 1, column := s.column + 1 }

theorem advance_source (s : LexState) : (advance s).source = s.source := by
  unfold advance; split
  · rfl
  · split <;> rfl

theorem advance_position (s : LexState) : (advance s).position = s.position + 1 := by
  unfold advance; split
  · rfl
  · split <;> rfl

/-- Python `str.isspace` restricted to ASCII. -/
def pyIsSpace (c : Char) : Bool :=
  c ∈ [' ', '\t', '\n', '\r', '\x0b', '\x0c']

/-- `skip_whitespace`. -/
def skipWhitespace (s : LexState) : LexState :=
  if h : s.position < s.source.length then
    if pyIsSpace (s.source.get ⟨s.position, h⟩) then skipWhitespace (advance s) else s
  else s
  termination_by s.source.length - s.position
  decreasing_by simp only [advance_source, advance_position]; omega

theorem skipWhitespace_source (s : LexState) : (skipWhitespace s).source = s.source := by
  induction s using skipWhitespace.induct with
  | case1 s h hsp ih =>
    rw [skipWhitespace, dif_pos h, if_pos hsp, ih, advance_source]
  | case2 s h hsp => rw [skipWhitespace, dif_pos h, if_neg hsp]
  | case3 s h => rw [skipWhitespace, dif_neg h]

theorem skipWhitespace_position_ge (s : LexState) :
    s.position ≤ (skipWhitespace s).position := by
  induction s using skipWhitespace.induct with
  | case1 s h hsp ih =>
    rw [skipWhitespace, dif_pos h, if_pos hsp]
    have := advance_position s
    omega
  | case2 s h hsp => rw [skipWhitespace, dif_pos h, if_neg hsp]
  | case3 s h => rw [skipWhitespace, dif_neg h]

theorem skipWhitespace_progress {s : LexState} (h : s.position < s.source.length)
    (hsp : pyIsSpace (s.source.get ⟨s.position, h⟩) = true) :
    s.position < (skipWhitespace s).position := by
  rw [skipWhitespace, dif_pos h, if_pos hsp]
  have h1 := skipWhitespace_position_ge (advance s)
  have h2 := advance_position s
  omega

/-- The scan-to-newline loop of `skip_comment`. -/
def skipCommentAux (s : LexState) : LexState :=
  if h : s.position < s.source.length then
    if s.source.get ⟨s.position, h⟩ ≠ '\n' then skipCommentAux (advance s) else s
  else s
  termination_by s.source.length - s.position
  decreasing_by simp only [advance_source, advance_position]; omega

theorem skipCommentAux_source (s : LexState) : (skipCommentAux s).source = s.source := by
  induction s using skipCommentAux.induct with
  | case1 s h hne ih =>
    rw [skipCommentAux, dif_pos h, if_pos hne, ih, advance_source]
  | case2 s h hne => rw [skipCommentAux, dif_pos h, if_neg hne]
  | case3 s h => rw [skipCommentAux, dif_neg h]

theorem skipCommentAux_position_ge (s : LexState) :
    s.position ≤ (skipCommentAux s).position := by
  induction s using skipCommentAux.induct with
  | case1 s h hne ih =>
    rw [skipCommentAux, dif_pos h, if_pos hne]
    have := advance_position s
    omega
  | case2 s h hne => rw [skipCommentAux, dif_pos h, if_neg hne]
  | case3 s h => rw [skipCommentAux, dif_neg h]

/-- `skip_comment`: skip the `'#'`, scan to the newline, consume it. -/
def skipComment (s : LexState) : LexState :=
  let s1 := skipCommentAux (advance s)
  if currentChar s1 = some '\n' then advance s1 else s1

theorem skipComment_source (s : LexState) : (skipComment s).source = s.source := by
  simp only [skipComment]
  split
  · rw [advance_source, skipCommentAux_source, advance_source]
  · rw [skipCommentAux_source, advance_source]

theorem skipComment_progress (s : LexState) : s.position < (skipComment s).position := by
  simp only [skipComment]
  have h1 := skipCommentAux_position_ge (advance s)
  have h2 := advance_position s
  have h3 := advance_position (skipCommentAux (advance s))
  split <;> omega

/-- The identifier-characters loop of `read_identifier`. -/
def readIdentAux (s : LexState) (acc : String) : String × LexState :=
  if h : s.position < s.source.length then
    if (s.source.get ⟨s.position, h⟩).isAlphanum || s.source.get ⟨s.position, h⟩ = '_' then
      readIdentAux (advance s) (acc.push (s.source.get ⟨s.position, h⟩))
    else (acc, s)
  else (acc, s)
  termination_by s.source.length - s.position
  decreasing_by simp only [advance_source, advance_position]; omega

theorem readIdentAux_source (s : LexState) (acc : String) :
    (readIdentAux s acc).2.source = s.source := by
  induction s, acc using readIdentAux.induct with
  | case1 s acc h hcond ih =>
    rw [readIdentAux]
    simp only [dif_pos h]
    rw [if_pos hcond, ih, advance_source]
  | case2 s acc h hcond =>
    rw [readIdentAux]
    simp only [dif_pos h]
    rw [if_neg hcond]
  | case3 s acc h => rw [readIdentAux, dif_neg h]

theorem readIdentAux_position_ge (s : LexState) (acc : String) :
    s.position ≤ (readIdentAux s acc).2.position := by
  induction s, acc using readIdentAux.induct with
  | case1 s acc h hcond ih =>
    rw [readIdentAux]
    simp only [dif_pos h]
    rw [if_pos hcond]
    have := advance_position s
    omega
  | case2 s acc h hcond =>
    rw [readIdentAux]
    simp only [dif_pos h]
    rw [if_neg hcond]
  | case3 s acc h => rw [readIdentAux, dif_neg h]

/-- Python `str.lower` restricted to ASCII. -/
def strLower (s : String) : String := ⟨s.data.map Char.toLower⟩

/-- The case-insensitive reserved-word table of the lexer. -/
def keywordLookup (w : String) : TokenType :=
  if w = "brainrot" then .PROGRAM
  else if w = "tongtongsahur" then .VAR
  else if w = "bombardino" then .INTEGER
  else if w = "crocodilo" then .FLOAT
  else if w = "chimpanzini" then .IF
  else if w = "bananini" then .ELSE
  else if w = "patapim" then .WHILE
  else if w = "drip" then .PRINT
  else .IDENTIFIER

/-- `read_identifier`. -/
def readIdentifier (s : LexState) : Token × LexState :=
  let columnStart := s.column
  let (result, s') := readIdentAux s ""
  (⟨keywordLookup (strLower result), result, s'.line, columnStart⟩, s')

/-- The number-characters loop of `read_number` (a second decimal
point is a lexical error). -/
def readNumberAux (s : LexState) (acc : String) (isFloat : Bool) :
    Except LexicalError (String × Bool × LexState) :=
  if h : s.position < s.source.length then
    if (s.source.get ⟨s.position, h⟩).isDigit || s.source.get ⟨s.position, h⟩ = '.' then
      if s.source.get ⟨s.position, h⟩ = '.' then
        if isFloat then
          .error ⟨"Invalid number format: multiple decimal points", s.line, s.column⟩
        else readNumberAux (advance s) (acc.push (s.source.get ⟨s.position, h⟩)) true
      else readNumberAux (advance s) (acc.push (s.source.get ⟨s.position, h⟩)) isFloat
    else .ok (acc, isFloat, s)
  else .ok (acc, isFloat, s)
  termination_by s.source.length - s.position
  decreasing_by
    all_goals simp only [advance_source, advance_position]; omega

theorem readNumberAux_ok_position_ge (s : LexState) (acc : String) (isFloat : Bool) :
    ∀ r, readNumberAux s acc isFloat = .ok r → s.position ≤ r.2.2.position := by
  induction s, acc, isFloat using readNumberAux.induct with
  | case1 s acc h hdig hdot =>
    intro r hr
    rw [readNumberAux] at hr
    simp only [dif_pos h] at hr
    rw [if_pos hdig, if_pos hdot] at hr
    simp at hr
  | case2 s acc isFloat h hdig hdot hisf ih =>
    intro r hr
    rw [readNumberAux] at hr
    simp only [dif_pos h] at hr
    rw [if_pos hdig, if_pos hdot, if_neg hisf] at hr
    have := ih r hr
    have h2 := advance_position s
    omega
  | case3 s acc isFloat h hdig hdot ih =>
    intro r hr
    rw [readNumberAux] at hr
    simp only [dif_pos h] at hr
    rw [if_pos hdig, if_neg hdot] at hr
    have := ih r hr
    have h2 := advance_position s
    omega
  | case4 s acc isFloat h hdig =>
    intro r hr
    rw [readNumberAux] at hr
    simp only [dif_pos h] at hr
    rw [if_neg hdig] at hr
    cases hr
    simp
  | case5 s acc isFloat h =>
    intro r hr
    rw [readNumberAux, dif_neg h] at hr
    cases hr
    simp

/-- `read_number`. -/
def readNumber (s : LexState) : Except LexicalError (Token × LexState) := do
  let columnStart := s.column
  let (result, isFloat, s') ← readNumberAux s "" false
  .ok (⟨if isFloat then .FLOAT_LITERAL else .INTEGER_LITERAL, result, s'.line, columnStart⟩, s')

/-- The `operators` table; both one- and two-character keys, exactly
as the Python dict. -/
def operatorLookup (w : String) : Option TokenType :=
  if w = "+" then some .PLUS
  else if w = "-" then some .MINUS
  else if w = "*" then some .MULTIPLY
  else if w = "/" then some .DIVIDE
  else if w = "=" then some .ASSIGN
  else if w = "==" then some .EQUALS
  else if w = "!=" then some .NOT_EQUALS
  else if w = "<" then some .LESS_THAN
  else if w = ">" then some .GREATER_THAN
  else if w = "(" then some .LPAREN
  else if w = ")" then some .RPAREN
  else if w = "\x7b" then some .LBRACE
  else if w = "\x7d" then some .RBRACE
  else if w = ";" then some .SEMICOLON
  else if w = "<=" then some .LESS_THAN_OR_EQUAL
  else if w = ">=" then some .GREATER_THAN_OR_EQUAL
  else none

/-- `get_next_token`: skip whitespace and comments, then produce one
token (identifier/keyword, number, two-character operator before its
one-character prefix, single-character operator, or a lexical error);
`EOF` once input is exhausted. -/
def getNextToken (s : LexState) : Except LexicalError (Token × LexState) :=
  if hlt : s.position < s.source.length then
    if hsp : pyIsSpace (s.source.get ⟨s.position, hlt⟩) then getNextToken (skipWhitespace s)
    else if s.source.get ⟨s.position, hlt⟩ = '#' then getNextToken (skipComment s)
    else if (s.source.get ⟨s.position, hlt⟩).isAlpha || s.source.get ⟨s.position, hlt⟩ = '_' then
      .ok (readIdentifier s)
    else if (s.source.get ⟨s.position, hlt⟩).isDigit then readNumber s
    else
      -- `two_char = self.current_char + (self.peek() or '')`
      match operatorLookup (String.mk (s.source.get ⟨s.position, hlt⟩ :: (peekChar s).toList)) with
      | some tt =>
        .ok (⟨tt, String.mk (s.source.get ⟨s.position, hlt⟩ :: (peekChar s).toList),
          s.line, s.column⟩, advance (advance s))
      | none =>
        match operatorLookup (String.mk [s.source.get ⟨s.position, hlt⟩]) with
        | some tt =>
          .ok (⟨tt, String.mk [s.source.get ⟨s.position, hlt⟩], s.line, s.column⟩, advance s)
        | none =>
          .error ⟨"Invalid character '" ++ String.mk [s.source.get ⟨s.position, hlt⟩] ++ "'",
            s.line, s.column⟩
  else .ok (⟨.EOF, "", s.line, s.column⟩, s)
  termination_by s.source.length - s.position
  decreasing_by
    · have h1 := skipWhitespace_progress hlt hsp
      have h2 := skipWhitespace_source s
      simp only [h2]; omega
    · have h1 := skipComment_progress s
      have h2 := skipComment_source s
      simp only [h2]; omega

/-- The `tokenize` loop, with explicit fuel (`none` = fuel exhausted;
the termination theorem for claim C9 shows `length + 1` fuel always
suffices). -/
def tokenizeSteps : ℕ → LexState → List Token → Option (Except LexicalError (List Token))
  | 0, _, _ => none
  | fuel + 1, s, acc =>
    match getNextToken s with
    | .error e => some (.error e)
    | .ok (tok, s') =>
      if tok.type = .EOF then some (.ok (acc ++ [tok]))
      else tokenizeSteps fuel s' (acc ++ [tok])

def initLex (src : String) : LexState := ⟨src.data, 0, 1, 1⟩

/-- `tokenize`. -/
def tokenize (src : String) : Except LexicalError (List Token) :=
  match tokenizeSteps (src.data.length + 1) (initLex src) [] with
  | some r => r
  | none => .error ⟨"tokenize: fuel exhausted (unreachable)", 0, 0⟩

/-! ## Parser (`parser.py`)

Recursive descent with one token of lookahead. The Python methods
mutate `self.current`; here every function takes the fixed token list
and a position and returns the new position. The mutual recursion is
made structural with a fuel parameter: every `while` loop and every
nested call runs at `fuel - 1`, and running out of fuel is an error
(for any fixed input, all large enough fuels agree). -/

structure ParseError where
  message : String
  line : ℤ
  column : ℤ
  deriving DecidableEq, Repr

/-- `peek`: the current token, or a synthesized EOF past the end. -/
def peekTok (ts : List Token) (p : ℕ) : Token :=
  (ts.get? p).getD ⟨.EOF, "", -1, -1⟩

/-- `match`: demand a token of the expected type and advance. -/
def matchTok (ts : List Token) (p : ℕ) (expected : TokenType) :
    Except ParseError (Token × ℕ) :=
  match ts.get? p with
  | none => .error ⟨"Unexpected end of input, expected " ++ typeStr expected, -1, -1⟩
  | some t =>
    if t.type = expected then .ok (t, p + 1)
    else .error ⟨"Expected " ++ typeStr expected ++ " but got " ++ typeStr t.type,
      t.line, t.column⟩

/-- `parse_declaration` (no recursion, so no fuel). -/
def parseDeclaration (ts : List Token) (p : ℕ) : Except ParseError (VarDeclaration × ℕ) := do
  let (_, p1) ← matchTok ts p .VAR
  let (nameTok, p2) ← matchTok ts p1 .IDENTIFIER
  let (_, p3) ← matchTok ts p2 .ASSIGN
  let (typeTok, p4) ←
    if (peekTok ts p3).type = .INTEGER then matchTok ts p3 .INTEGER
    else matchTok ts p3 .FLOAT
  let (_, p5) ← matchTok ts p4 .SEMICOLON
  .ok (⟨nameTok.value, typeTok.value, nameTok.line, nameTok.column⟩, p5)

def fuelError : ParseError := ⟨"parser fuel exhausted", -1, -1⟩

mutual

/-- `parse_program`. -/
def parseProgram : ℕ → List Token → ℕ → Except ParseError (Program × ℕ)
  | 0, _, _ => .error fuelError
  | fuel + 1, ts, p => do
    let (decls, p1) ← parseDeclarations fuel ts p
    let (stmts, p2) ← parseStatementsUntilEOF fuel ts p1
    .ok (⟨decls, stmts⟩, p2)

/-- The `while self.peek().type == VAR` loop of `parse_program`. -/
def parseDeclarations : ℕ → List Token → ℕ → Except ParseError (List VarDeclaration × ℕ)
  | 0, _, _ => .error fuelError
  | fuel + 1, ts, p =>
    if (peekTok ts p).type = .VAR then do
      let (d, p1) ← parseDeclaration ts p
      let (ds, p2) ← parseDeclarations fuel ts p1
      .ok (d :: ds, p2)
    else .ok ([], p)

/-- The `while self.peek().type != EOF` loop of `parse_program`. -/
def parseStatementsUntilEOF : ℕ → List Token → ℕ → Except ParseError (List Stmt × ℕ)
  | 0, _, _ => .error fuelError
  | fuel + 1, ts, p =>
    if (peekTok ts p).type ≠ .EOF then do
      let (st, p1) ← parseStatement fuel ts p
      let (rest, p2) ← parseStatementsUntilEOF fuel ts p1
      .ok (st :: rest, p2)
    else .ok ([], p)

/-- The `while self.peek().type != RBRACE` block-statement loops. -/
def parseStatementsUntilRBrace : ℕ → List Token → ℕ → Except ParseError (List Stmt × ℕ)
  | 0, _, _ => .error fuelError
  | fuel + 1, ts, p =>
    if (peekTok ts p).type ≠ .RBRACE then do
      let (st, p1) ← parseStatement fuel ts p
      let (rest, p2) ← parseStatementsUntilRBrace fuel ts p1
      .ok (st :: rest, p2)
    else .ok ([], p)

/-- `parse_statement` dispatch. -/
def parseStatement : ℕ → List Token → ℕ → Except ParseError (Stmt × ℕ)
  | 0, _, _ => .error fuelError
  | fuel + 1, ts, p =>
    if (peekTok ts p).type = .IDENTIFIER then parseAssignment fuel ts p
    else if (peekTok ts p).type = .IF then parseIfStatement fuel ts p
    else if (peekTok ts p).type = .WHILE then parseWhileStatement fuel ts p
    else if (peekTok ts p).type = .PRINT then parsePrintStatement fuel ts p
    else .error ⟨"Unexpected token " ++ typeStr (peekTok ts p).type,
      (peekTok ts p).line, (peekTok ts p).column⟩

/-- `parse_assignment`. -/
def parseAssignment : ℕ → List Token → ℕ → Except ParseError (Stmt × ℕ)
  | 0, _, _ => .error fuelError
  | fuel + 1, ts, p => do
    let (idTok, p1) ← matchTok ts p .IDENTIFIER
    let (_, p2) ← matchTok ts p1 .ASSIGN
    let (e, p3) ← parseExpression fuel ts p2
    let (_, p4) ← matchTok ts p3 .SEMICOLON
    .ok (.assignmentStmt idTok.value e idTok.line idTok.column, p4)

/-- `parse_if_statement`: then block, chained bare-`if` elif blocks,
optional trailing else block. -/
def parseIfStatement : ℕ → List Token → ℕ → Except ParseError (Stmt × ℕ)
  | 0, _, _ => .error fuelError
  | fuel + 1, ts, p => do
    let (ifTok, p1) ← matchTok ts p .IF
    let (_, p2) ← matchTok ts p1 .LPAREN
    let (cond, p3) ← parseExpression fuel ts p2
    let (_, p4) ← matchTok ts p3 .RPAREN
    let (_, p5) ← matchTok ts p4 .LBRACE
    let (thenB, p6) ← parseStatementsUntilRBrace fuel ts p5
    let (_, p7) ← matchTok ts p6 .RBRACE
    let (elifs, p8) ← parseElifBlocks fuel ts p7
    if (peekTok ts p8).type = .ELSE then do
      let (_, p9) ← matchTok ts p8 .ELSE
      let (_, p10) ← matchTok ts p9 .LBRACE
      let (elseB, p11) ← parseStatementsUntilRBrace fuel ts p10
      let (_, p12) ← matchTok ts p11 .RBRACE
      .ok (.ifStmt cond thenB elifs (some elseB) ifTok.line ifTok.column, p12)
    else .ok (.ifStmt cond thenB elifs none ifTok.line ifTok.column, p8)

/-- The `while self.peek().type == IF` elif loop of
`parse_if_statement`. -/
def parseElifBlocks : ℕ → List Token → ℕ → Except ParseError (List (Expr × List Stmt) × ℕ)
  | 0, _, _ => .error fuelError
  | fuel + 1, ts, p =>
    if (peekTok ts p).type = .IF then do
      let (_, p1) ← matchTok ts p .IF
      let (_, p2) ← matchTok ts p1 .LPAREN
      let (c, p3) ← parseExpression fuel ts p2
      let (_, p4) ← matchTok ts p3 .RPAREN
      let (_, p5) ← matchTok ts p4 .LBRACE
      let (body, p6) ← parseStatementsUntilRBrace fuel ts p5
      let (_, p7) ← matchTok ts p6 .RBRACE
      let (rest, p8) ← parseElifBlocks fuel ts p7
      .ok ((c, body) :: rest, p8)
    else .ok ([], p)

/-- `parse_while_statement`. -/
def parseWhileStatement : ℕ → List Token → ℕ → Except ParseError (Stmt × ℕ)
  | 0, _, _ => .error fuelError
  | fuel + 1, ts, p => do
    let (whTok, p1) ← matchTok ts p .WHILE
    let (_, p2) ← matchTok ts p1 .LPAREN
    let (cond, p3) ← parseExpression fuel ts p2
    let (_, p4) ← matchTok ts p3 .RPAREN
    let (_, p5) ← matchTok ts p4 .LBRACE
    let (body, p6) ← parseStatementsUntilRBrace fuel ts p5
    let (_, p7) ← matchTok ts p6 .RBRACE
    .ok (.whileStmt cond body whTok.line whTok.column, p7)

/-- `parse_print_statement`. -/
def parsePrintStatement : ℕ → List Token → ℕ → Except ParseError (Stmt × ℕ)
  | 0, _, _ => .error fuelError
  | fuel + 1, ts, p => do
    let (prTok, p1) ← matchTok ts p .PRINT
    let (_, p2) ← matchTok ts p1 .LPAREN
    let (e, p3) ← parseExpression fuel ts p2
    let (_, p4) ← matchTok ts p3 .RPAREN
    let (_, p5) ← matchTok ts p4 .SEMICOLON
    .ok (.printStmt e prTok.line prTok.column, p5)

/-- `parse_expression`. -/
def parseExpression : ℕ → List Token → ℕ → Except ParseError (Expr × ℕ)
  | 0, _, _ => .error fuelError
  | fuel + 1, ts, p => parseComparison fuel ts p

/-- `parse_comparison`. -/
def parseComparison : ℕ → List Token → ℕ → Except ParseError (Expr × ℕ)
  | 0, _, _ => .error fuelError
  | fuel + 1, ts, p => do
    let (e, p1) ← parseAdditive fuel ts p
    parseComparisonLoop fuel ts p1 e

/-- The comparison-operator loop: only `==`, `!=`, `<`, `>` are
consumed (never `<=`/`>=`). -/
def parseComparisonLoop : ℕ → List Token → ℕ → Expr → Except ParseError (Expr × ℕ)
  | 0, _, _, _ => .error fuelError
  | fuel + 1, ts, p, e =>
    if (peekTok ts p).type ∈ [TokenType.EQUALS, .NOT_EQUALS, .LESS_THAN, .GREATER_THAN] then do
      let (r, p2) ← parseAdditive fuel ts (p + 1)
      parseComparisonLoop fuel ts p2
        (.binaryOp e (peekTok ts p) r (peekTok ts p).line (peekTok ts p).column)
    else .ok (e, p)

/-- `parse_additive`. -/
def parseAdditive : ℕ → List Token → ℕ → Except ParseError (Expr × ℕ)
  | 0, _, _ => .error fuelError
  | fuel + 1, ts, p => do
    let (e, p1) ← parseMultiplicative fuel ts p
    parseAdditiveLoop fuel ts p1 e

def parseAdditiveLoop : ℕ → List Token → ℕ → Expr → Except ParseError (Expr × ℕ)
  | 0, _, _, _ => .error fuelError
  | fuel + 1, ts, p, e =>
    if (peekTok ts p).type ∈ [TokenType.PLUS, .MINUS] then do
      let (r, p2) ← parseMultiplicative fuel ts (p + 1)
      parseAdditiveLoop fuel ts p2
        (.binaryOp e (peekTok ts p) r (peekTok ts p).line (peekTok ts p).column)
    else .ok (e, p)

/-- `parse_multiplicative`. -/
def parseMultiplicative : ℕ → List Token → ℕ → Except ParseError (Expr × ℕ)
  | 0, _, _ => .error fuelError
  | fuel + 1, ts, p => do
    let (e, p1) ← parsePrimary fuel ts p
    parseMultiplicativeLoop fuel ts p1 e

def parseMultiplicativeLoop : ℕ → List Token → ℕ → Expr → Except ParseError (Expr × ℕ)
  | 0, _, _, _ => .error fuelError
  | fuel + 1, ts, p, e =>
    if (peekTok ts p).type ∈ [TokenType.MULTIPLY, .DIVIDE] then do
      let (r, p2) ← parsePrimary fuel ts (p + 1)
      parseMultiplicativeLoop fuel ts p2
        (.binaryOp e (peekTok ts p) r (peekTok ts p).line (peekTok ts p).column)
    else .ok (e, p)

/-- `parse_primary`: literal, identifier, parenthesized expression or
unary `+`/`-` (the lexer only puts digit strings in literal tokens, so
the parse defaults are never exercised on lexer output). -/
def parsePrimary : ℕ → List Token → ℕ → Except ParseError (Expr × ℕ)
  | 0, _, _ => .error fuelError
  | fuel + 1, ts, p =>
    if (peekTok ts p).type ∈ [TokenType.INTEGER_LITERAL, .FLOAT_LITERAL] then
      let value :=
        if (peekTok ts p).type = .INTEGER_LITERAL then
          PyNum.int ((pyIntParse (peekTok ts p).value).getD 0)
        else PyNum.float ((pyFloatParse (peekTok ts p).value).getD ⟨0, 1⟩)
      .ok (.literal value (peekTok ts p).line (peekTok ts p).column, p + 1)
    else if (peekTok ts p).type = .IDENTIFIER then
      .ok (.identifier (peekTok ts p).value (peekTok ts p).line (peekTok ts p).column, p + 1)
    else if (peekTok ts p).type = .LPAREN then do
      let (e, p1) ← parseExpression fuel ts (p + 1)
      let (_, p2) ← matchTok ts p1 .RPAREN
      .ok (e, p2)
    else if (peekTok ts p).type ∈ [TokenType.PLUS, .MINUS] then do
      let (operand, p1) ← parsePrimary fuel ts (p + 1)
      .ok (.unaryOp (peekTok ts p) operand (peekTok ts p).line (peekTok ts p).column, p1)
    else .error ⟨"Unexpected token " ++ typeStr (peekTok ts p).type,
      (peekTok ts p).line, (peekTok ts p).column⟩

end

/-- `parse`: parse a whole token list from position 0. -/
def parseTokens (fuel : ℕ) (ts : List Token) : Except ParseError Program :=
  (parseProgram fuel ts 0).map (·.1)

/-- Every token position in `[p, q)` holds a token the parser is
allowed to consume: never `<=` (`LESS_THAN_OR_EQUAL`) and never `>=`
(`GREATER_THAN_OR_EQUAL`); no parser function ever matches or skips
over one of these two types. -/
def NoLeGeConsumed (ts : List Token) (p q : ℕ) : Prop :=
  p ≤ q ∧ ∀ i, p ≤ i → i < q →
    (peekTok ts i).type ≠ TokenType.LESS_THAN_OR_EQUAL ∧
    (peekTok ts i).type ≠ TokenType.GREATER_THAN_OR_EQUAL

/-! ## Observation helpers used by the claim statements -/

/-- Names of `Label` instructions, in order. -/
def labelNames (l : List TACInstruction) : List String :=
  l.filterMap fun i => match i with
    | .label n => some n
    | _ => none

/-- Targets of `Jump`/`ConditionalJump` instructions, in order. -/
def jumpTargets (l : List TACInstruction) : List String :=
  l.filterMap fun i => match i with
    | .jump t => some t
    | .conditionalJump _ t => some t
    | _ => none

/-- Targets of `BinaryOperation`/`UnaryOperation` instructions
(the compiler-generated temporaries), in order. -/
def opTargets (l : List TACInstruction) : List String :=
  l.filterMap fun i => match i with
    | .binaryOperation t _ _ _ => some t
    | .unaryOperation t _ _ => some t
    | _ => none

/-- All write targets (`Assignment`/`BinaryOperation`/`UnaryOperation`). -/
def writeTargets (l : List TACInstruction) : List String :=
  l.filterMap targetOf?

/-- Targets of `Assignment` instructions only, in order. -/
def assignTargets (l : List TACInstruction) : List String :=
  l.filterMap fun i => match i with
    | .assignment t _ => some t
    | _ => none

/-- The label produced by `new_label` for counter value `n`. -/
def mkLab (n : ℕ) : String := "L" ++ Nat.repr n

/-- The temporary produced by `new_temp` for counter value `n`. -/
def mkTemp (n : ℕ) : String := "t" ++ Nat.repr n

/-- Keep-filter for claim C2: instructions that either have no write
target or whose target does not begin with `'t'`. -/
def keepNonTempTarget (i : TACInstruction) : Bool :=
  match targetOf? i with
  | some t => !(strStartsWith1 t 't')
  | none => true

mutual

/-- Variables that appear as assignment-statement targets. -/
def stmtAssignVars : Stmt → List String
  | .assignmentStmt v _ _ _ => [v]
  | .ifStmt _ thenB elifs elseB _ _ =>
    stmtsAssignVars thenB ++ elifsAssignVars elifs ++
      (match elseB with
       | some b => stmtsAssignVars b
       | none => [])
  | .whileStmt _ body _ _ => stmtsAssignVars body
  | .printStmt _ _ _ => []

def stmtsAssignVars : List Stmt → List String
  | [] => []
  | st :: rest => stmtAssignVars st ++ stmtsAssignVars rest

def elifsAssignVars : List (Expr × List Stmt) → List String
  | [] => []
  | (_, body) :: rest => stmtsAssignVars body ++ elifsAssignVars rest

end

def programAssignVars (p : Program) : List String := stmtsAssignVars p.statements

/-- A concrete source program used as an evaluation point: one integer
variable, one assignment, an if/else, and a while loop. -/
def exProgram : Program :=
  ⟨[⟨"x", "bombardino", 1, 1⟩],
   [.assignmentStmt "x" (.literal (.int 5) 2 5) 2 1,
    .ifStmt (.binaryOp (.identifier "x" 3 14) ⟨.GREATER_THAN, ">", 3, 16⟩
        (.literal (.int 0) 3 18) 3 16)
      [.printStmt (.literal (.int 1) 4 7) 4 1]
      []
      (some [.printStmt (.literal (.int 0) 6 7) 6 1])
      3 1,
    .whileStmt (.binaryOp (.identifier "x" 8 10) ⟨.LESS_THAN, "<", 8, 12⟩
        (.literal (.int 9) 8 14) 8 12)
      [.assignmentStmt "x"
        (.binaryOp (.identifier "x" 9 5) ⟨.PLUS, "+", 9, 7⟩ (.literal (.int 1) 9 9) 9 7)
        9 1]
      8 1]⟩

/-- A program whose `if` carries one elif branch: the elif condition
`x` is a bare `bombardino` identifier (not boolean) and the elif body
assigns to the undeclared variable `y`. -/
def elifBugProgram : Program :=
  ⟨[⟨"x", "bombardino", 1, 1⟩],
   [.ifStmt (.binaryOp (.identifier "x" 2 14) ⟨.EQUALS, "==", 2, 16⟩
        (.literal (.int 0) 2 19) 2 16)
      [.printStmt (.literal (.int 1) 3 7) 3 1]
      [(.identifier "x" 4 14, [.assignmentStmt "y" (.literal (.int 1) 5 7) 5 1])]
      none
      2 1]⟩

/-- The symbol table `analyze` builds for `elifBugProgram`'s single
declaration. -/
def elifBugTable : SymbolTable := [("x", ⟨"x", "bombardino", 1, 1⟩)]

/-- A program whose only statement assigns to an undeclared variable,
so semantic analysis fails. -/
def undeclProgram : Program :=
  ⟨[], [.assignmentStmt "x" (.literal (.int 1) 1 5) 1 1]⟩

/-! ## Invariant packages for the IR generator (claims C6, C10) -/

/-- What one lowered statement contributes: appended instructions, a
counter-range of fresh labels each emitted exactly once (as a
multiset), jump targets resolving within the contribution, temporaries
targeted in allocation order, and `Assignment` targets drawn from the
statement's own assignment variables. -/
def StmtGenSpec (st : Stmt) : Prop :=
  ∀ s : GenState, ∃ δ kl kt,
    (genStmt st s).instructions = s.instructions ++ δ ∧
    (genStmt st s).tempCounter = s.tempCounter + kt ∧
    (genStmt st s).labelCounter = s.labelCounter + kl ∧
    (genStmt st s).vars = s.vars ∧
    (labelNames δ : Multiset String) = ↑((List.range' s.labelCounter kl).map mkLab) ∧
    (∀ t ∈ jumpTargets δ, t ∈ labelNames δ) ∧
    opTargets δ = (List.range' s.tempCounter kt).map mkTemp ∧
    (∀ v src, TACInstruction.assignment v src ∈ δ → v ∈ stmtAssignVars st)

def StmtsGenSpec (l : List Stmt) : Prop :=
  ∀ s : GenState, ∃ δ kl kt,
    (genStmts l s).instructions = s.instructions ++ δ ∧
    (genStmts l s).tempCounter = s.tempCounter + kt ∧
    (genStmts l s).labelCounter = s.labelCounter + kl ∧
    (genStmts l s).vars = s.vars ∧
    (labelNames δ : Multiset String) = ↑((List.range' s.labelCounter kl).map mkLab) ∧
    (∀ t ∈ jumpTargets δ, t ∈ labelNames δ) ∧
    opTargets δ = (List.range' s.tempCounter kt).map mkTemp ∧
    (∀ v src, TACInstruction.assignment v src ∈ δ → v ∈ stmtsAssignVars l)

/-- As `StmtGenSpec`, for the elif chain: the pending else label goes
in, the final else label comes out still unemitted, and jumps may
additionally target the final else label or the end label (both
emitted by the caller). -/
def ElifsGenSpec (el : List (Expr × List Stmt)) : Prop :=
  ∀ (endL curL : String) (s : GenState), ∃ δ kl kt,
    (genElifs el endL curL s).2.instructions = s.instructions ++ δ ∧
    (genElifs el endL curL s).2.tempCounter = s.tempCounter + kt ∧
    (genElifs el endL curL s).2.labelCounter = s.labelCounter + kl ∧
    (genElifs el endL curL s).2.vars = s.vars ∧
    ((genElifs el endL curL s).1 ::ₘ (labelNames δ : Multiset String)) =
      curL ::ₘ ↑((List.range' s.labelCounter kl).map mkLab) ∧
    (∀ t ∈ jumpTargets δ,
      t ∈ labelNames δ ∨ t = (genElifs el endL curL s).1 ∨ t = endL) ∧
    opTargets δ = (List.range' s.tempCounter kt).map mkTemp ∧
    (∀ v src, TACInstruction.assignment v src ∈ δ → v ∈ elifsAssignVars el)

/-! ## Lemmas: constant folding -/

theorem foldInstruction_assignment (t src : String) :
    foldInstruction (.assignment t src) = .assignment t src := rfl

/-- One folding step either leaves the instruction unchanged or turns
it into an assignment. -/
theorem foldInstruction_shape (i : TACInstruction) :
    foldInstruction i = i ∨ ∃ t src, foldInstruction i = .assignment t src := by
  cases i with
  | binaryOperation t l op r =>
    cases hl : pyNumParse l with
    | none => left; simp [foldInstruction, hl]
    | some lv =>
      cases hr : pyNumParse r with
      | none => left; simp [foldInstruction, hl, hr]
      | some rv =>
        simp only [foldInstruction, hl, hr]
        split
        next v heq => right; exact ⟨t, pyStr v, rfl⟩
        next heq => left; rfl
  | print v => left; rfl
  | assignment t src => left; rfl
  | unaryOperation t op a => left; rfl
  | label n => left; rfl
  | jump t => left; rfl
  | conditionalJump c t => left; rfl

theorem foldInstruction_idem (i : TACInstruction) :
    foldInstruction (foldInstruction i) = foldInstruction i := by
  rcases foldInstruction_shape i with h | ⟨t, src, h⟩
  · rw [h]; exact h
  · rw [h]; exact foldInstruction_assignment t src

theorem foldInstruction_div_zero (tgt lf rt : String) (v : PyNum)
    (hr : pyNumParse rt = some v) (hz : v.isZero = true) :
    foldInstruction (.binaryOperation tgt lf "/" rt) = .binaryOperation tgt lf "/" rt := by
  simp only [foldInstruction, hr]
  cases hl : pyNumParse lf with
  | none => rfl
  | some lv => simp [hz]

/-! ## Claim theorems: optimizer (C2, C4, C5) -/

/-- Claim C4 (confirmed): constant folding is idempotent — applying
the pass twice yields exactly the same TAC sequence as applying it
once. -/
theorem c4_constant_folding_idempotent (l : List TACInstruction) :
    constantFolding (constantFolding l) = constantFolding l := by
  unfold constantFolding
  rw [List.map_map]
  exact List.map_congr_left fun i _ => by
    simp only [Function.comp_apply, foldInstruction_idem]

/-- Claim C5 (confirmed): a `BinaryOperation` whose operator is `/`
and whose right operand is an immediate numeral equal to zero is left
entirely unchanged by the constant-folding pass (no folding, no
error), even when the left operand is also an immediate. -/
theorem c5_division_by_zero_left_unfolded (l : List TACInstruction) (i : ℕ)
    (tgt lf rt : String) (v : PyNum)
    (hi : l.get? i = some (.binaryOperation tgt lf "/" rt))
    (hr : pyNumParse rt = some v) (hz : v.isZero = true) :
    (constantFolding l).get? i = some (.binaryOperation tgt lf "/" rt) := by
  unfold constantFolding
  rw [List.get?_map, hi, Option.map_some']
  rw [foldInstruction_div_zero tgt lf rt v hr hz]

/-- Witness for C5 at `x := 5 / 0` (both operands immediate, right
operand the zero numeral `"0"`). -/
theorem c5_division_by_zero_left_unfolded_witness :
    [TACInstruction.binaryOperation "x" "5" "/" "0"].get? 0 =
        some (.binaryOperation "x" "5" "/" "0") ∧
    pyNumParse "0" = some (PyNum.int 0) ∧ (PyNum.int 0).isZero = true ∧
    (constantFolding [TACInstruction.binaryOperation "x" "5" "/" "0"]).get? 0 =
      some (.binaryOperation "x" "5" "/" "0") :=
  ⟨rfl, by decide, by decide,
    c5_division_by_zero_left_unfolded _ 0 "x" "5" "0" (PyNum.int 0) rfl (by decide) (by decide)⟩

/-- Claim C2 (refuted as stated): dead-code elimination classifies
"temporary" by `target.startswith('t')` alone, so it removes the
assignment to the user-declared variable `total`, which is not a
compiler-generated temporary (`t` followed by digits). -/
theorem c2_counterexample :
    isCompilerTempName "total" = false ∧
    deadCodeElimination [TACInstruction.assignment "total" "5"] = [] := by
  exact ⟨by decide, by decide⟩

/-- Claim C2 (amended): dead-code elimination never removes, modifies
or reorders an instruction that has no write target or whose write
target does not begin with the character `'t'`; the output is a
sublist of the input. -/
theorem c2_dce_preserves_non_t_targets (l : List TACInstruction) :
    (deadCodeElimination l).filter keepNonTempTarget = l.filter keepNonTempTarget ∧
    List.Sublist (deadCodeElimination l) l := by
  constructor
  · simp only [deadCodeElimination]
    rw [List.filter_filter]
    apply List.filter_congr
    intro i _
    cases hk : keepNonTempTarget i with
    | false => simp
    | true =>
      simp only [Bool.true_and]
      unfold keepNonTempTarget at hk
      cases hti : targetOf? i with
      | none => simp [hti]
      | some t =>
        rw [hti] at hk
        simp only [hti]
        simp only [Bool.not_eq_true'] at hk ⊢
        simp [hk]
  · simp only [deadCodeElimination]
    exact List.filter_sublist l

/-! ## Lemmas: IR generator state shape -/

theorem labelNames_append (a b : List TACInstruction) :
    labelNames (a ++ b) = labelNames a ++ labelNames b := by
  unfold labelNames; exact List.filterMap_append a b _

theorem jumpTargets_append (a b : List TACInstruction) :
    jumpTargets (a ++ b) = jumpTargets a ++ jumpTargets b := by
  unfold jumpTargets; exact List.filterMap_append a b _

theorem opTargets_append (a b : List TACInstruction) :
    opTargets (a ++ b) = opTargets a ++ opTargets b := by
  unfold opTargets; exact List.filterMap_append a b _

theorem writeTargets_append (a b : List TACInstruction) :
    writeTargets (a ++ b) = writeTargets a ++ writeTargets b := by
  unfold writeTargets; exact List.filterMap_append a b _

/-- Lowering an expression appends instructions, bumps only the
temporary counter, emits no labels or jumps, emits no `Assignment`s,
and targets exactly the freshly allocated temporaries in order. -/
theorem genExpr_state (e : Expr) : ∀ s : GenState,
    ∃ δ kt,
      (genExpr e s).2.instructions = s.instructions ++ δ ∧
      (genExpr e s).2.tempCounter = s.tempCounter + kt ∧
      (genExpr e s).2.labelCounter = s.labelCounter ∧
      (genExpr e s).2.vars = s.vars ∧
      labelNames δ = [] ∧ jumpTargets δ = [] ∧
      opTargets δ = (List.range' s.tempCounter kt).map mkTemp ∧
      (∀ v src, TACInstruction.assignment v src ∈ δ → False) := by
  induction e with
  | literal v li co =>
    intro s
    exact ⟨[], 0, by simp [genExpr], by simp [genExpr], by simp [genExpr],
      by simp [genExpr], rfl, rfl, by simp [opTargets], by simp⟩
  | identifier n li co =>
    intro s
    exact ⟨[], 0, by simp [genExpr], by simp [genExpr], by simp [genExpr],
      by simp [genExpr], rfl, rfl, by simp [opTargets], by simp⟩
  | unaryOp opTok a li co iha =>
    intro s
    obtain ⟨δa, ka, hai, hat, halc, hav, hal, haj, hao, haa⟩ := iha s
    refine ⟨δa ++ [.unaryOperation (mkTemp (s.tempCounter + ka)) opTok.value
      (genExpr a s).1], ka + 1, ?_, ?_, ?_, ?_, ?_, ?_, ?_, ?_⟩
    · simp only [genExpr, GenState.emit, newTemp]
      simp only [hai, hat]
      simp [mkTemp, List.append_assoc]
    · simp only [genExpr, GenState.emit, newTemp]
      simp [hat, Nat.add_assoc]
    · simp only [genExpr, GenState.emit, newTemp]
      simp [halc]
    · simp only [genExpr, GenState.emit, newTemp]
      simp [hav]
    · rw [labelNames_append, hal]; rfl
    · rw [jumpTargets_append, haj]; rfl
    · rw [opTargets_append, hao]
      have h1 : List.range' s.tempCounter (ka + 1) =
          List.range' s.tempCounter ka ++ [s.tempCounter + ka] := by
        rw [List.range'_concat]
        simp
      rw [h1, List.map_append]
      rfl
    · intro v src hmem
      rcases List.mem_append.mp hmem with h | h
      · exact haa v src h
      · simp at h
  | binaryOp a opTok b li co iha ihb =>
    intro s
    obtain ⟨δa, ka, hai, hat, halc, hav, hal, haj, hao, haa⟩ := iha s
    obtain ⟨δb, kb, hbi, hbt, hblc, hbv, hbl, hbj, hbo, hba⟩ := ihb (genExpr a s).2
    rw [hat] at hbt hbo
    rw [hai] at hbi
    refine ⟨δa ++ δb ++ [.binaryOperation (mkTemp (s.tempCounter + ka + kb))
      (genExpr a s).1 opTok.value (genExpr b (genExpr a s).2).1], ka + kb + 1,
      ?_, ?_, ?_, ?_, ?_, ?_, ?_, ?_⟩
    · simp only [genExpr, GenState.emit, newTemp]
      simp only [hbi, hbt]
      simp [mkTemp, List.append_assoc, Nat.add_assoc]
    · simp only [genExpr, GenState.emit, newTemp]
      simp [hbt]
      omega
    · simp only [genExpr, GenState.emit, newTemp]
      simp [hblc, halc]
    · simp only [genExpr, GenState.emit, newTemp]
      simp [hbv, hav]
    · rw [labelNames_append, labelNames_append, hal, hbl]; rfl
    · rw [jumpTargets_append, jumpTargets_append, haj, hbj]; rfl
    · rw [opTargets_append, opTargets_append, hao, hbo]
      have h1 : List.range' s.tempCounter (ka + kb + 1) =
          List.range' s.tempCounter ka ++ (List.range' (s.tempCounter + ka) kb ++
            [s.tempCounter + ka + kb]) := by
        rw [show ka + kb + 1 = (kb + 1) + ka from by omega,
          ← List.range'_append_1 s.tempCounter ka (kb + 1), List.range'_concat]
        simp
      rw [h1]
      simp only [List.map_append, List.append_assoc]
      rfl
    · intro v src hmem
      rcases List.mem_append.mp hmem with h | h
      · rcases List.mem_append.mp h with h | h
        · exact haa v src h
        · exact hba v src h
      · simp at h

/-! ## Claim theorem: if/else lowering (C3) -/

/-- Claim C3 (confirmed): for an `if` with a then-block and an
else-block and no elif branches, the generator emits — after the
condition code, which leaves the label counter untouched — a
conditional jump on the negated condition to the else label
`L(labelCounter)` (allocated before the end label
`L(labelCounter + 1)`), then the lowered then-block, an unconditional
jump to the end label, the else label, the lowered else-block, and the
end label. -/
theorem c3_if_else_lowering (s : GenState) (cond : Expr) (thenB elseB : List Stmt)
    (li co : ℤ) :
    ∃ condR s1 s2 s3,
      genExpr cond s = (condR, s1) ∧
      s1.labelCounter = s.labelCounter ∧
      s2 = genStmts thenB
        ⟨s1.instructions ++ [.conditionalJump ("not " ++ condR) (mkLab s.labelCounter)],
          s1.tempCounter, s.labelCounter + 2, s1.vars⟩ ∧
      s3 = genStmts elseB
        ⟨s2.instructions ++ [.jump (mkLab (s.labelCounter + 1)),
            .label (mkLab s.labelCounter)],
          s2.tempCounter, s2.labelCounter, s2.vars⟩ ∧
      genStmt (.ifStmt cond thenB [] (some elseB) li co) s =
        ⟨s3.instructions ++ [.label (mkLab (s.labelCounter + 1))],
          s3.tempCounter, s3.labelCounter, s3.vars⟩ := by
  rcases hgc : genExpr cond s with ⟨condR, s1⟩
  have hlc : s1.labelCounter = s.labelCounter := by
    obtain ⟨δ, kt, _, _, h3, _⟩ := genExpr_state cond s
    rw [hgc] at h3
    exact h3
  refine ⟨condR, s1, _, _, rfl, hlc, rfl, rfl, ?_⟩
  simp only [genStmt, hgc, newLabel, GenState.emit, genElifs, mkLab, hlc]
  cases s1 with
  | mk i1 t1 l1 v1 =>
    simp only at hlc
    subst hlc
    simp [List.append_assoc]

/-! ## Lemmas: generator invariants, per construct -/

theorem range'_map_append (f : ℕ → String) (a m n : ℕ) :
    (List.range' a (m + n)).map f = (List.range' a m).map f ++ (List.range' (a + m) n).map f := by
  rw [show m + n = n + m from Nat.add_comm m n, ← List.range'_append_1, List.map_append]

theorem stmtGenSpec_assignment (v : String) (e : Expr) (li co : ℤ) :
    StmtGenSpec (.assignmentStmt v e li co) := by
  intro s
  rcases hge : genExpr e s with ⟨r, s1⟩
  obtain ⟨δe, kt, hei, het, helc, hev, hel, hej, heo, hea⟩ := genExpr_state e s
  rw [hge] at hei het helc hev
  simp only at hei het helc hev
  refine ⟨δe ++ [.assignment v r], 0, kt, ?_, ?_, ?_, ?_, ?_, ?_, ?_, ?_⟩
  · simp only [genStmt, hge, GenState.emit]
    rw [hei, List.append_assoc]
  · simp only [genStmt, hge, GenState.emit]
    rw [het]
  · simp only [genStmt, hge, GenState.emit]
    rw [helc]
    omega
  · simp only [genStmt, hge, GenState.emit]
    rw [hev]
  · rw [labelNames_append, hel]
    rfl
  · rw [jumpTargets_append, hej]
    intro t ht
    simp [jumpTargets] at ht
  · rw [opTargets_append, heo]
    simp [opTargets]
  · intro v' src hmem
    rcases List.mem_append.mp hmem with h | h
    · exact absurd h (fun hh => hea v' src hh)
    · simp at h
      simp [stmtAssignVars, h.1]

theorem stmtGenSpec_print (e : Expr) (li co : ℤ) :
    StmtGenSpec (.printStmt e li co) := by
  intro s
  rcases hge : genExpr e s with ⟨r, s1⟩
  obtain ⟨δe, kt, hei, het, helc, hev, hel, hej, heo, hea⟩ := genExpr_state e s
  rw [hge] at hei het helc hev
  simp only at hei het helc hev
  refine ⟨δe ++ [.print r], 0, kt, ?_, ?_, ?_, ?_, ?_, ?_, ?_, ?_⟩
  · simp only [genStmt, hge, GenState.emit]
    rw [hei, List.append_assoc]
  · simp only [genStmt, hge, GenState.emit]
    rw [het]
  · simp only [genStmt, hge, GenState.emit]
    rw [helc]
    omega
  · simp only [genStmt, hge, GenState.emit]
    rw [hev]
  · rw [labelNames_append, hel]
    rfl
  · rw [jumpTargets_append, hej]
    intro t ht
    simp [jumpTargets] at ht
  · rw [opTargets_append, heo]
    simp [opTargets]
  · intro v' src hmem
    rcases List.mem_append.mp hmem with h | h
    · exact absurd h (fun hh => hea v' src hh)
    · simp at h

theorem stmtsGenSpec_nil : StmtsGenSpec [] := by
  intro s
  exact ⟨[], 0, 0, by simp [genStmts], by simp [genStmts], by simp [genStmts],
    by simp [genStmts], rfl, by simp [jumpTargets], by simp [opTargets], by simp⟩

theorem stmtsGenSpec_cons (st : Stmt) (rest : List Stmt)
    (hst : StmtGenSpec st) (hrest : StmtsGenSpec rest) :
    StmtsGenSpec (st :: rest) := by
  intro s
  obtain ⟨δ1, kl1, kt1, h1i, h1t, h1l, h1v, h1lab, h1j, h1o, h1a⟩ := hst s
  obtain ⟨δ2, kl2, kt2, h2i, h2t, h2l, h2v, h2lab, h2j, h2o, h2a⟩ := hrest (genStmt st s)
  rw [h1i] at h2i
  rw [h1t] at h2t h2o
  rw [h1l] at h2l h2lab
  rw [h1v] at h2v
  refine ⟨δ1 ++ δ2, kl1 + kl2, kt1 + kt2, ?_, ?_, ?_, ?_, ?_, ?_, ?_, ?_⟩
  · simp only [genStmts]
    rw [h2i, List.append_assoc]
  · simp only [genStmts]
    rw [h2t]
    omega
  · simp only [genStmts]
    rw [h2l]
    omega
  · simp only [genStmts]
    rw [h2v]
  · rw [labelNames_append, ← Multiset.coe_add, h1lab, h2lab,
      range'_map_append mkLab s.labelCounter kl1 kl2, Multiset.coe_add]
  · intro t ht
    rw [jumpTargets_append] at ht
    rw [labelNames_append]
    rcases List.mem_append.mp ht with h | h
    · exact List.mem_append.mpr (Or.inl (h1j t h))
    · exact List.mem_append.mpr (Or.inr (h2j t h))
  · rw [opTargets_append, h1o, h2o, range'_map_append mkTemp s.tempCounter kt1 kt2]
  · intro v src hmem
    simp only [stmtsAssignVars]
    rcases List.mem_append.mp hmem with h | h
    · exact List.mem_append.mpr (Or.inl (h1a v src h))
    · exact List.mem_append.mpr (Or.inr (h2a v src h))

theorem elifsGenSpec_nil : ElifsGenSpec [] := by
  intro endL curL s
  exact ⟨[], 0, 0, by simp [genElifs], by simp [genElifs], by simp [genElifs],
    by simp [genElifs], by simp [genElifs, labelNames], by simp [jumpTargets],
    by simp [opTargets], by simp⟩

theorem newLabel_eq (s : GenState) :
    newLabel s = (mkLab s.labelCounter, { s with labelCounter := s.labelCounter + 1 }) := rfl

theorem newTemp_eq (s : GenState) :
    newTemp s = (mkTemp s.tempCounter, { s with tempCounter := s.tempCounter + 1 }) := rfl

section ObservationSimp

attribute [simp] labelNames_append jumpTargets_append opTargets_append writeTargets_append

@[simp] theorem labelNames_nil : labelNames [] = [] := rfl
@[simp] theorem jumpTargets_nil : jumpTargets [] = [] := rfl
@[simp] theorem opTargets_nil : opTargets [] = [] := rfl
@[simp] theorem writeTargets_nil : writeTargets [] = [] := rfl

@[simp] theorem labelNames_cons_print (v : String) (l : List TACInstruction) :
    labelNames (.print v :: l) = labelNames l := rfl
@[simp] theorem labelNames_cons_assignment (t src : String) (l : List TACInstruction) :
    labelNames (.assignment t src :: l) = labelNames l := rfl
@[simp] theorem labelNames_cons_bin (t a op b : String) (l : List TACInstruction) :
    labelNames (.binaryOperation t a op b :: l) = labelNames l := rfl
@[simp] theorem labelNames_cons_un (t op a : String) (l : List TACInstruction) :
    labelNames (.unaryOperation t op a :: l) = labelNames l := rfl
@[simp] theorem labelNames_cons_label (n : String) (l : List TACInstruction) :
    labelNames (.label n :: l) = n :: labelNames l := rfl
@[simp] theorem labelNames_cons_jump (t : String) (l : List TACInstruction) :
    labelNames (.jump t :: l) = labelNames l := rfl
@[simp] theorem labelNames_cons_cj (c t : String) (l : List TACInstruction) :
    labelNames (.conditionalJump c t :: l) = labelNames l := rfl

@[simp] theorem jumpTargets_cons_print (v : String) (l : List TACInstruction) :
    jumpTargets (.print v :: l) = jumpTargets l := rfl
@[simp] theorem jumpTargets_cons_assignment (t src : String) (l : List TACInstruction) :
    jumpTargets (.assignment t src :: l) = jumpTargets l := rfl
@[simp] theorem jumpTargets_cons_bin (t a op b : String) (l : List TACInstruction) :
    jumpTargets (.binaryOperation t a op b :: l) = jumpTargets l := rfl
@[simp] theorem jumpTargets_cons_un (t op a : String) (l : List TACInstruction) :
    jumpTargets (.unaryOperation t op a :: l) = jumpTargets l := rfl
@[simp] theorem jumpTargets_cons_label (n : String) (l : List TACInstruction) :
    jumpTargets (.label n :: l) = jumpTargets l := rfl
@[simp] theorem jumpTargets_cons_jump (t : String) (l : List TACInstruction) :
    jumpTargets (.jump t :: l) = t :: jumpTargets l := rfl
@[simp] theorem jumpTargets_cons_cj (c t : String) (l : List TACInstruction) :
    jumpTargets (.conditionalJump c t :: l) = t :: jumpTargets l := rfl

@[simp] theorem opTargets_cons_print (v : String) (l : List TACInstruction) :
    opTargets (.print v :: l) = opTargets l := rfl
@[simp] theorem opTargets_cons_assignment (t src : String) (l : List TACInstruction) :
    opTargets (.assignment t src :: l) = opTargets l := rfl
@[simp] theorem opTargets_cons_bin (t a op b : String) (l : List TACInstruction) :
    opTargets (.binaryOperation t a op b :: l) = t :: opTargets l := rfl
@[simp] theorem opTargets_cons_un (t op a : String) (l : List TACInstruction) :
    opTargets (.unaryOperation t op a :: l) = t :: opTargets l := rfl
@[simp] theorem opTargets_cons_label (n : String) (l : List TACInstruction) :
    opTargets (.label n :: l) = opTargets l := rfl
@[simp] theorem opTargets_cons_jump (t : String) (l : List TACInstruction) :
    opTargets (.jump t :: l) = opTargets l := rfl
@[simp] theorem opTargets_cons_cj (c t : String) (l : List TACInstruction) :
    opTargets (.conditionalJump c t :: l) = opTargets l := rfl

@[simp] theorem writeTargets_cons_print (v : String) (l : List TACInstruction) :
    writeTargets (.print v :: l) = writeTargets l := rfl
@[simp] theorem writeTargets_cons_assignment (t src : String) (l : List TACInstruction) :
    writeTargets (.assignment t src :: l) = t :: writeTargets l := rfl
@[simp] theorem writeTargets_cons_bin (t a op b : String) (l : List TACInstruction) :
    writeTargets (.binaryOperation t a op b :: l) = t :: writeTargets l := rfl
@[simp] theorem writeTargets_cons_un (t op a : String) (l : List TACInstruction) :
    writeTargets (.unaryOperation t op a :: l) = t :: writeTargets l := rfl
@[simp] theorem writeTargets_cons_label (n : String) (l : List TACInstruction) :
    writeTargets (.label n :: l) = writeTargets l := rfl
@[simp] theorem writeTargets_cons_jump (t : String) (l : List TACInstruction) :
    writeTargets (.jump t :: l) = writeTargets l := rfl
@[simp] theorem writeTargets_cons_cj (c t : String) (l : List TACInstruction) :
    writeTargets (.conditionalJump c t :: l) = writeTargets l := rfl

end ObservationSimp

theorem stmtGenSpec_while (cond : Expr) (body : List Stmt) (li co : ℤ)
    (hb : StmtsGenSpec body) : StmtGenSpec (.whileStmt cond body li co) := by
  intro s
  obtain ⟨si, stc, slc, sv⟩ := s
  rcases hgc : genExpr cond ⟨si ++ [.label (mkLab slc)], stc, slc + 1 + 1, sv⟩
    with ⟨condR, s4⟩
  obtain ⟨i4, t4, l4, v4⟩ := s4
  obtain ⟨δc, ktc, hci, hct, hclc, hcv, hcl, hcj, hco, hca⟩ :=
    genExpr_state cond ⟨si ++ [.label (mkLab slc)], stc, slc + 1 + 1, sv⟩
  rw [hgc] at hci hct hclc hcv
  simp only at hci hct hclc hcv hco
  subst hci hct hclc
  rw [hcv] at hgc
  clear hcv v4
  obtain ⟨δb, klb, ktb, hbi, hbt, hbl, hbv, hblab, hbj, hbo, hba⟩ :=
    hb ⟨si ++ [.label (mkLab slc)] ++ δc ++
      [.conditionalJump ("not " ++ condR) (mkLab (slc + 1))], stc + ktc, slc + 1 + 1, sv⟩
  simp only at hbi hbt hbl hbv hblab hbo
  refine ⟨[.label (mkLab slc)] ++ δc ++ [.conditionalJump ("not " ++ condR)
    (mkLab (slc + 1))] ++ δb ++ [.jump (mkLab slc), .label (mkLab (slc + 1))],
    klb + 2, ktc + ktb, ?_, ?_, ?_, ?_, ?_, ?_, ?_, ?_⟩
  · simp only [genStmt, newLabel_eq, GenState.emit, hgc]
    rw [hbi]
    simp [List.append_assoc]
  · simp only [genStmt, newLabel_eq, GenState.emit, hgc]
    rw [hbt]
    omega
  · simp only [genStmt, newLabel_eq, GenState.emit, hgc]
    rw [hbl]
    omega
  · simp only [genStmt, newLabel_eq, GenState.emit, hgc]
    rw [hbv]
  · simp only [List.singleton_append, labelNames_append, labelNames_cons_label,
      labelNames_cons_cj, labelNames_cons_jump, labelNames_nil, hcl]
    rw [Multiset.coe_eq_coe]
    have hr : List.range' slc (klb + 2) = slc :: (slc + 1) :: List.range' (slc + 1 + 1) klb := by
      rw [show klb + 2 = (klb + 1) + 1 from rfl, List.range'_succ, List.range'_succ]
    rw [hr]
    simp only [List.map_cons, List.nil_append]
    refine List.Perm.cons _ ?_
    refine (List.perm_append_singleton (mkLab (slc + 1)) (labelNames δb)).symm.symm.trans ?_
    exact List.Perm.cons _ (Multiset.coe_eq_coe.mp hblab)
  · intro t ht
    simp only [List.singleton_append, jumpTargets_append, jumpTargets_cons_label,
      jumpTargets_cons_cj, jumpTargets_cons_jump, jumpTargets_nil, hcj,
      List.nil_append, List.append_nil] at ht
    simp only [List.singleton_append, labelNames_append, labelNames_cons_label,
      labelNames_cons_cj, labelNames_cons_jump, labelNames_nil, hcl,
      List.nil_append, List.append_nil]
    simp only [List.mem_cons, List.mem_append, List.mem_singleton] at ht ⊢
    have hb2 : t ∈ jumpTargets δb → t ∈ labelNames δb := hbj t
    tauto
  · simp only [List.singleton_append, opTargets_append, opTargets_cons_label,
      opTargets_cons_cj, opTargets_cons_jump, opTargets_nil, hco, hbo,
      List.nil_append, List.append_nil]
    rw [range'_map_append mkTemp stc ktc ktb]
  · intro v src hmem
    simp only [List.append_assoc, List.singleton_append] at hmem
    simp at hmem
    simp only [stmtAssignVars]
    have h1 : TACInstruction.assignment v src ∈ δc → False := fun hh => hca v src hh
    have h2 : TACInstruction.assignment v src ∈ δb → v ∈ stmtsAssignVars body :=
      fun hh => hba v src hh
    tauto

theorem elifsGenSpec_cons (cond : Expr) (body : List Stmt)
    (rest : List (Expr × List Stmt)) (hb : StmtsGenSpec body) (hr : ElifsGenSpec rest) :
    ElifsGenSpec ((cond, body) :: rest) := by
  intro endL curL s
  obtain ⟨si, stc, slc, sv⟩ := s
  rcases hgc : genExpr cond ⟨si ++ [.label curL], stc, slc + 1, sv⟩ with ⟨condR, s3⟩
  obtain ⟨i3, t3, l3, v3⟩ := s3
  obtain ⟨δc, ktc, hci, hct, hclc, hcv, hcl, hcj, hco, hca⟩ :=
    genExpr_state cond ⟨si ++ [.label curL], stc, slc + 1, sv⟩
  rw [hgc] at hci hct hclc hcv
  simp only at hci hct hclc hcv hco
  subst hci hct hclc
  rw [hcv] at hgc
  clear hcv v3
  rcases hgb : genStmts body ⟨si ++ [.label curL] ++ δc ++
      [.conditionalJump ("not " ++ condR) (mkLab slc)], stc + ktc, slc + 1, sv⟩
    with ⟨i5, t5, l5, v5⟩
  obtain ⟨δb, klb, ktb, hbi, hbt, hbl, hbv, hblab, hbj, hbo, hba⟩ :=
    hb ⟨si ++ [.label curL] ++ δc ++
      [.conditionalJump ("not " ++ condR) (mkLab slc)], stc + ktc, slc + 1, sv⟩
  rw [hgb] at hbi hbt hbl hbv
  simp only at hbi hbt hbl hbv hblab hbo
  subst hbi hbt hbl
  rw [hbv] at hgb
  clear hbv v5
  obtain ⟨δr, klr, ktr, hri, hrt, hrl, hrv, hrlab, hrj, hro, hra⟩ :=
    hr endL (mkLab slc) ⟨si ++ [.label curL] ++ δc ++
      [.conditionalJump ("not " ++ condR) (mkLab slc)] ++ δb ++ [.jump endL],
      stc + ktc + ktb, slc + 1 + klb, sv⟩
  simp only at hri hrt hrl hrv hrlab hro
  refine ⟨[.label curL] ++ δc ++ [.conditionalJump ("not " ++ condR) (mkLab slc)] ++
    δb ++ [.jump endL] ++ δr, klb + klr + 1, ktc + ktb + ktr, ?_, ?_, ?_, ?_, ?_, ?_, ?_, ?_⟩
  · simp only [genElifs, newLabel_eq, GenState.emit, hgc, hgb]
    rw [hri]
    simp [List.append_assoc]
  · simp only [genElifs, newLabel_eq, GenState.emit, hgc, hgb]
    rw [hrt]
    omega
  · simp only [genElifs, newLabel_eq, GenState.emit, hgc, hgb]
    rw [hrl]
    omega
  · simp only [genElifs, newLabel_eq, GenState.emit, hgc, hgb]
    rw [hrv]
  · simp only [genElifs, newLabel_eq, GenState.emit, hgc, hgb]
    simp only [List.singleton_append, labelNames_append, labelNames_cons_label,
      labelNames_cons_cj, labelNames_cons_jump, labelNames_nil, hcl,
      List.nil_append, List.append_nil]
    have hr1 : List.range' slc (klb + klr + 1) =
        slc :: List.range' (slc + 1) (klb + klr) := List.range'_succ slc (klb + klr) 1
    rw [hr1, List.map_cons, range'_map_append mkLab (slc + 1) klb klr]
    simp only [← Multiset.cons_coe, ← Multiset.coe_add, ← Multiset.singleton_add] at hrlab ⊢
    rw [hblab]
    calc ({(genElifs rest endL (mkLab slc)
            ⟨si ++ [TACInstruction.label curL] ++ δc ++
              [TACInstruction.conditionalJump ("not " ++ condR) (mkLab slc)] ++ δb ++
              [TACInstruction.jump endL], stc + ktc + ktb, slc + 1 + klb, sv⟩).1} : Multiset String) +
          ({curL} + (↑(List.map mkLab (List.range' (slc + 1) klb)) + ↑(labelNames δr)))
        = ({curL} + ↑(List.map mkLab (List.range' (slc + 1) klb))) +
          ({(genElifs rest endL (mkLab slc)
            ⟨si ++ [TACInstruction.label curL] ++ δc ++
              [TACInstruction.conditionalJump ("not " ++ condR) (mkLab slc)] ++ δb ++
              [TACInstruction.jump endL], stc + ktc + ktb, slc + 1 + klb, sv⟩).1} +
            ↑(labelNames δr)) := by abel
      _ = ({curL} + ↑(List.map mkLab (List.range' (slc + 1) klb))) +
          ({mkLab slc} + ↑(List.map mkLab (List.range' (slc + 1 + klb) klr))) := by rw [hrlab]
      _ = {curL} + ({mkLab slc} + (↑(List.map mkLab (List.range' (slc + 1) klb)) +
            ↑(List.map mkLab (List.range' (slc + 1 + klb) klr)))) := by abel
  · intro t ht
    simp only [genElifs, newLabel_eq, GenState.emit, hgc, hgb]
    simp only [List.singleton_append, jumpTargets_append, jumpTargets_cons_label,
      jumpTargets_cons_cj, jumpTargets_cons_jump, jumpTargets_nil, hcj,
      List.nil_append, List.append_nil] at ht
    simp only [List.singleton_append, labelNames_append, labelNames_cons_label,
      labelNames_cons_cj, labelNames_cons_jump, labelNames_nil, hcl,
      List.nil_append, List.append_nil]
    simp only [List.mem_cons, List.mem_append, List.mem_singleton] at ht ⊢
    have hfin : mkLab slc ∈ labelNames δr ∨ mkLab slc = (genElifs rest endL (mkLab slc)
        ⟨si ++ [TACInstruction.label curL] ++ δc ++
          [TACInstruction.conditionalJump ("not " ++ condR) (mkLab slc)] ++ δb ++
          [TACInstruction.jump endL], stc + ktc + ktb, slc + 1 + klb, sv⟩).1 := by
      have hmem : mkLab slc ∈ ((genElifs rest endL (mkLab slc)
          ⟨si ++ [TACInstruction.label curL] ++ δc ++
            [TACInstruction.conditionalJump ("not " ++ condR) (mkLab slc)] ++ δb ++
            [TACInstruction.jump endL], stc + ktc + ktb, slc + 1 + klb, sv⟩).1 ::ₘ
          (labelNames δr : Multiset String)) := by
        rw [hrlab]
        exact Multiset.mem_cons_self _ _
      rcases Multiset.mem_cons.mp hmem with h | h
      · exact Or.inr h
      · exact Or.inl (by simpa using h)
    have hfin2 : t = mkLab slc → t ∈ labelNames δr ∨ t = (genElifs rest endL (mkLab slc)
        ⟨si ++ [TACInstruction.label curL] ++ δc ++
          [TACInstruction.conditionalJump ("not " ++ condR) (mkLab slc)] ++ δb ++
          [TACInstruction.jump endL], stc + ktc + ktb, slc + 1 + klb, sv⟩).1 := by
      intro he
      rw [he]
      tauto
    have hb2 : t ∈ jumpTargets δb → t ∈ labelNames δb := hbj t
    have hr2 := hrj t
    simp only [List.mem_cons, List.mem_append, List.mem_singleton] at hr2
    tauto
  · simp only [List.singleton_append, opTargets_append, opTargets_cons_label,
      opTargets_cons_cj, opTargets_cons_jump, opTargets_nil, hco, hbo, hro,
      List.nil_append, List.append_nil]
    rw [range'_map_append mkTemp stc (ktc + ktb) ktr,
      range'_map_append mkTemp stc ktc ktb]
    simp [List.append_assoc, Nat.add_assoc]
  · intro v src hmem
    simp only [List.append_assoc, List.singleton_append, List.mem_cons,
      List.mem_append] at hmem
    simp only [elifsAssignVars]
    have h1 : TACInstruction.assignment v src ∈ δc → False := fun hh => hca v src hh
    have h2 : TACInstruction.assignment v src ∈ δb → v ∈ stmtsAssignVars body :=
      fun hh => hba v src hh
    have h3 : TACInstruction.assignment v src ∈ δr → v ∈ elifsAssignVars rest :=
      fun hh => hra v src hh
    have hne1 : TACInstruction.assignment v src ≠ .label curL := by simp
    have hne2 : TACInstruction.assignment v src ≠
        .conditionalJump ("not " ++ condR) (mkLab slc) := by simp
    have hne3 : TACInstruction.assignment v src ≠ .jump endL := by simp
    simp only [List.mem_append]
    rcases hmem with (h | h) | (h | h) | (h | h)
    · exact absurd h hne1
    · exact absurd h (fun hh => h1 hh)
    · exact absurd h hne2
    · exact Or.inl (h2 h)
    · exact absurd h hne3
    · exact Or.inr (h3 h)

set_option maxHeartbeats 1000000 in
theorem stmtGenSpec_if (cond : Expr) (thenB : List Stmt)
    (elifs : List (Expr × List Stmt)) (elseB : Option (List Stmt)) (li co : ℤ)
    (hth : StmtsGenSpec thenB) (hel : ElifsGenSpec elifs)
    (hels : ∀ b, elseB = some b → StmtsGenSpec b) :
    StmtGenSpec (.ifStmt cond thenB elifs elseB li co) := by
  intro s
  obtain ⟨si, stc, slc, sv⟩ := s
  rcases hgc : genExpr cond ⟨si, stc, slc, sv⟩ with ⟨condR, s1⟩
  obtain ⟨i1, t1, l1, v1⟩ := s1
  obtain ⟨δc, ktc, hci, hct, hclc, hcv, hcl, hcj, hco, hca⟩ :=
    genExpr_state cond ⟨si, stc, slc, sv⟩
  rw [hgc] at hci hct hclc hcv
  simp only at hci hct hclc hcv hco
  subst hci hct
  rw [hclc, hcv] at hgc
  clear hclc hcv l1 v1
  rcases hgt : genStmts thenB ⟨si ++ δc ++
      [.conditionalJump ("not " ++ condR) (mkLab slc)], stc + ktc, slc + 1 + 1, sv⟩
    with ⟨i5, t5, l5, v5⟩
  obtain ⟨δt, klt, ktt, hti, htt, htl, htv, htlab, htj, hto, hta⟩ :=
    hth ⟨si ++ δc ++ [.conditionalJump ("not " ++ condR) (mkLab slc)],
      stc + ktc, slc + 1 + 1, sv⟩
  rw [hgt] at hti htt htl htv
  simp only at hti htt htl htv htlab hto
  subst hti htt htl
  rw [htv] at hgt
  clear htv v5
  rcases hge : genElifs elifs (mkLab (slc + 1)) (mkLab slc)
      ⟨si ++ δc ++ [.conditionalJump ("not " ++ condR) (mkLab slc)] ++ δt ++
        [.jump (mkLab (slc + 1))], stc + ktc + ktt, slc + 1 + 1 + klt, sv⟩
    with ⟨fin, s7⟩
  obtain ⟨i7, t7, l7, v7⟩ := s7
  obtain ⟨δe, kle, kte, hei, het, hel2, hev, helb, hej, heo, hea⟩ :=
    hel (mkLab (slc + 1)) (mkLab slc)
      ⟨si ++ δc ++ [.conditionalJump ("not " ++ condR) (mkLab slc)] ++ δt ++
        [.jump (mkLab (slc + 1))], stc + ktc + ktt, slc + 1 + 1 + klt, sv⟩
  rw [hge] at hei het hel2 hev helb hej
  simp only at hei het hel2 hev helb hej heo
  subst hei het hel2
  rw [hev] at hge
  clear hev v7
  cases elseB with
  | none =>
    refine ⟨δc ++ [.conditionalJump ("not " ++ condR) (mkLab slc)] ++ δt ++
      [.jump (mkLab (slc + 1))] ++ δe ++ [.label fin] ++ [.label (mkLab (slc + 1))],
      klt + kle + 2, ktc + ktt + kte, ?_, ?_, ?_, ?_, ?_, ?_, ?_, ?_⟩
    · simp only [genStmt, newLabel_eq, GenState.emit, hgc, hgt, hge]
      simp [List.append_assoc]
    · simp only [genStmt, newLabel_eq, GenState.emit, hgc, hgt, hge]
      omega
    · simp only [genStmt, newLabel_eq, GenState.emit, hgc, hgt, hge]
      omega
    · simp only [genStmt, newLabel_eq, GenState.emit, hgc, hgt, hge]
    · simp only [List.singleton_append, labelNames_append, labelNames_cons_label,
        labelNames_cons_cj, labelNames_cons_jump, labelNames_nil, hcl,
        List.nil_append, List.append_nil]
      have hr1 : List.range' slc (klt + kle + 2) =
          slc :: (slc + 1) :: List.range' (slc + 1 + 1) (klt + kle) := by
        rw [show klt + kle + 2 = (klt + kle + 1) + 1 from rfl, List.range'_succ,
          List.range'_succ]
      rw [hr1, List.map_cons, List.map_cons,
        range'_map_append mkLab (slc + 1 + 1) klt kle]
      simp only [← Multiset.cons_coe, ← Multiset.coe_add, ← Multiset.singleton_add,
        Multiset.coe_nil, add_zero] at helb ⊢
      rw [htlab]
      calc (↑(List.map mkLab (List.range' (slc + 1 + 1) klt)) : Multiset String) +
            ↑(labelNames δe) + {fin} + {mkLab (slc + 1)}
          = ↑(List.map mkLab (List.range' (slc + 1 + 1) klt)) +
            (({fin} + ↑(labelNames δe)) + {mkLab (slc + 1)}) := by abel
        _ = ↑(List.map mkLab (List.range' (slc + 1 + 1) klt)) +
            (({mkLab slc} + ↑(List.map mkLab (List.range' (slc + 1 + 1 + klt) kle))) +
              {mkLab (slc + 1)}) := by rw [helb]
        _ = {mkLab slc} + ({mkLab (slc + 1)} +
            (↑(List.map mkLab (List.range' (slc + 1 + 1) klt)) +
              ↑(List.map mkLab (List.range' (slc + 1 + 1 + klt) kle)))) := by abel
    · intro t ht
      simp only [List.singleton_append, jumpTargets_append, jumpTargets_cons_label,
        jumpTargets_cons_cj, jumpTargets_cons_jump, jumpTargets_nil, hcj,
        List.nil_append, List.append_nil] at ht
      simp only [List.singleton_append, labelNames_append, labelNames_cons_label,
        labelNames_cons_cj, labelNames_cons_jump, labelNames_nil, hcl,
        List.nil_append, List.append_nil]
      simp only [List.mem_cons, List.mem_append, List.mem_singleton] at ht ⊢
      have hfin2 : t = mkLab slc → t ∈ labelNames δe ∨ t = fin := by
        intro he
        have hmem : mkLab slc ∈ (fin ::ₘ (labelNames δe : Multiset String)) := by
          rw [helb]
          exact Multiset.mem_cons_self _ _
        rcases Multiset.mem_cons.mp hmem with h | h
        · exact Or.inr (by rw [he, h])
        · exact Or.inl (by rw [he]; simpa using h)
      have ht2 : t ∈ jumpTargets δt → t ∈ labelNames δt := htj t
      have he2 := hej t
      simp only [List.mem_cons, List.mem_append, List.mem_singleton] at he2
      tauto
    · simp only [List.singleton_append, opTargets_append, opTargets_cons_label,
        opTargets_cons_cj, opTargets_cons_jump, opTargets_nil, hco, hto, heo,
        List.nil_append, List.append_nil]
      rw [range'_map_append mkTemp stc (ktc + ktt) kte,
        range'_map_append mkTemp stc ktc ktt]
      simp [List.append_assoc, Nat.add_assoc]
    · intro v src hmem
      simp only [List.append_assoc, List.singleton_append, List.mem_cons,
        List.mem_append] at hmem
      simp only [stmtAssignVars, List.mem_append]
      have h1 : TACInstruction.assignment v src ∈ δc → False := fun hh => hca v src hh
      have h2 : TACInstruction.assignment v src ∈ δt → v ∈ stmtsAssignVars thenB :=
        fun hh => hta v src hh
      have h3 : TACInstruction.assignment v src ∈ δe → v ∈ elifsAssignVars elifs :=
        fun hh => hea v src hh
      rcases hmem with h | (h | h) | (h | h) | h
      · exact absurd h (fun hh => h1 hh)
      · exact absurd h (by simp)
      · exact Or.inl (Or.inl (h2 h))
      · exact absurd h (by simp)
      · exact Or.inl (Or.inr (h3 h))
      · rcases h with h | h <;> exact absurd h (by simp)
  | some b =>
    have hbSpec := hels b rfl
    rcases hgb : genStmts b ⟨si ++ δc ++
        [.conditionalJump ("not " ++ condR) (mkLab slc)] ++ δt ++
        [.jump (mkLab (slc + 1))] ++ δe ++ [.label fin],
        stc + ktc + ktt + kte, slc + 1 + 1 + klt + kle, sv⟩
      with ⟨i9, t9, l9, v9⟩
    obtain ⟨δb, klb, ktb, hbi, hbt, hbl, hbv, hblab, hbj, hbo, hba⟩ :=
      hbSpec ⟨si ++ δc ++ [.conditionalJump ("not " ++ condR) (mkLab slc)] ++ δt ++
        [.jump (mkLab (slc + 1))] ++ δe ++ [.label fin],
        stc + ktc + ktt + kte, slc + 1 + 1 + klt + kle, sv⟩
    rw [hgb] at hbi hbt hbl hbv
    simp only at hbi hbt hbl hbv hblab hbo
    subst hbi hbt hbl
    rw [hbv] at hgb
    clear hbv v9
    refine ⟨δc ++ [.conditionalJump ("not " ++ condR) (mkLab slc)] ++ δt ++
      [.jump (mkLab (slc + 1))] ++ δe ++ [.label fin] ++ δb ++
      [.label (mkLab (slc + 1))],
      klt + kle + klb + 2, ktc + ktt + kte + ktb, ?_, ?_, ?_, ?_, ?_, ?_, ?_, ?_⟩
    · simp only [genStmt, newLabel_eq, GenState.emit, hgc, hgt, hge, hgb]
      simp [List.append_assoc]
    · simp only [genStmt, newLabel_eq, GenState.emit, hgc, hgt, hge, hgb]
      omega
    · simp only [genStmt, newLabel_eq, GenState.emit, hgc, hgt, hge, hgb]
      omega
    · simp only [genStmt, newLabel_eq, GenState.emit, hgc, hgt, hge, hgb]
    · simp only [List.singleton_append, labelNames_append, labelNames_cons_label,
        labelNames_cons_cj, labelNames_cons_jump, labelNames_nil, hcl,
        List.nil_append, List.append_nil]
      have hr1 : List.range' slc (klt + kle + klb + 2) =
          slc :: (slc + 1) :: List.range' (slc + 1 + 1) (klt + kle + klb) := by
        rw [show klt + kle + klb + 2 = (klt + kle + klb + 1) + 1 from rfl,
          List.range'_succ, List.range'_succ]
      rw [hr1, List.map_cons, List.map_cons,
        show klt + kle + klb = klt + (kle + klb) from by omega,
        range'_map_append mkLab (slc + 1 + 1) klt (kle + klb),
        range'_map_append mkLab (slc + 1 + 1 + klt) kle klb]
      simp only [← Multiset.cons_coe, ← Multiset.coe_add, ← Multiset.singleton_add,
        Multiset.coe_nil, add_zero] at helb ⊢
      rw [htlab, hblab]
      calc (↑(List.map mkLab (List.range' (slc + 1 + 1) klt)) : Multiset String) +
            ↑(labelNames δe) + {fin} +
            ↑(List.map mkLab (List.range' (slc + 1 + 1 + klt + kle) klb)) +
            {mkLab (slc + 1)}
          = ↑(List.map mkLab (List.range' (slc + 1 + 1) klt)) +
            (({fin} + ↑(labelNames δe)) +
              (↑(List.map mkLab (List.range' (slc + 1 + 1 + klt + kle) klb)) +
                {mkLab (slc + 1)})) := by abel
        _ = ↑(List.map mkLab (List.range' (slc + 1 + 1) klt)) +
            (({mkLab slc} + ↑(List.map mkLab (List.range' (slc + 1 + 1 + klt) kle))) +
              (↑(List.map mkLab (List.range' (slc + 1 + 1 + klt + kle) klb)) +
                {mkLab (slc + 1)})) := by rw [helb]
        _ = {mkLab slc} + ({mkLab (slc + 1)} +
            (↑(List.map mkLab (List.range' (slc + 1 + 1) klt)) +
              (↑(List.map mkLab (List.range' (slc + 1 + 1 + klt) kle)) +
                ↑(List.map mkLab (List.range' (slc + 1 + 1 + klt + kle) klb))))) := by abel
    · intro t ht
      clear hgc hgt hge hgb
      simp only [List.singleton_append, jumpTargets_append, jumpTargets_cons_label,
        jumpTargets_cons_cj, jumpTargets_cons_jump, jumpTargets_nil, hcj,
        List.nil_append, List.append_nil] at ht
      simp only [List.singleton_append, labelNames_append, labelNames_cons_label,
        labelNames_cons_cj, labelNames_cons_jump, labelNames_nil, hcl,
        List.nil_append, List.append_nil]
      simp only [List.mem_cons, List.mem_append, List.mem_singleton] at ht ⊢
      have hfin2 : t = mkLab slc → t ∈ labelNames δe ∨ t = fin := by
        intro he
        have hmem : mkLab slc ∈ (fin ::ₘ (labelNames δe : Multiset String)) := by
          rw [helb]
          exact Multiset.mem_cons_self _ _
        rcases Multiset.mem_cons.mp hmem with h | h
        · exact Or.inr (by rw [he, h])
        · exact Or.inl (by rw [he]; simpa using h)
      have ht2 : t ∈ jumpTargets δt → t ∈ labelNames δt := htj t
      have hb2 : t ∈ jumpTargets δb → t ∈ labelNames δb := hbj t
      have he2 := hej t
      simp only [List.mem_cons, List.mem_append, List.mem_singleton] at he2
      clear htlab helb hblab htj hej hbj hco hto heo hbo hca hta hea hba
      tauto
    · clear hgc hgt hge hgb
      simp only [List.singleton_append, opTargets_append, opTargets_cons_label,
        opTargets_cons_cj, opTargets_cons_jump, opTargets_nil, hco, hto, heo, hbo,
        List.nil_append, List.append_nil]
      rw [range'_map_append mkTemp stc (ktc + ktt + kte) ktb,
        range'_map_append mkTemp stc (ktc + ktt) kte,
        range'_map_append mkTemp stc ktc ktt]
      simp [List.append_assoc, Nat.add_assoc]
    · intro v src hmem
      clear hgc hgt hge hgb
      simp only [List.append_assoc, List.singleton_append, List.mem_cons,
        List.mem_append] at hmem
      simp only [stmtAssignVars, List.mem_append]
      have h1 : TACInstruction.assignment v src ∈ δc → False := fun hh => hca v src hh
      have h2 : TACInstruction.assignment v src ∈ δt → v ∈ stmtsAssignVars thenB :=
        fun hh => hta v src hh
      have h3 : TACInstruction.assignment v src ∈ δe → v ∈ elifsAssignVars elifs :=
        fun hh => hea v src hh
      have h4 : TACInstruction.assignment v src ∈ δb → v ∈ stmtsAssignVars b :=
        fun hh => hba v src hh
      rcases hmem with h | (h | h) | (h | h) | (h | h) | h
      · exact absurd h (fun hh => h1 hh)
      · exact absurd h (by simp)
      · exact Or.inl (Or.inl (h2 h))
      · exact absurd h (by simp)
      · exact Or.inl (Or.inr (h3 h))
      · exact absurd h (by simp)
      · exact Or.inr (h4 h)
      · exact absurd h (by simp)

/-- All three generator invariants hold for every statement / statement
list / elif chain, by strong induction on size. -/
theorem genSpecAll : ∀ n : ℕ,
    (∀ st : Stmt, sizeOf st ≤ n → StmtGenSpec st) ∧
    (∀ l : List Stmt, sizeOf l ≤ n → StmtsGenSpec l) ∧
    (∀ el : List (Expr × List Stmt), sizeOf el ≤ n → ElifsGenSpec el) := by
  intro n
  induction n using Nat.strong_induction_on with
  | _ n ih =>
    refine ⟨?_, ?_, ?_⟩
    · intro st hle
      cases st with
      | assignmentStmt v e li co => exact stmtGenSpec_assignment v e li co
      | printStmt e li co => exact stmtGenSpec_print e li co
      | whileStmt cond body li co =>
        simp only [Stmt.whileStmt.sizeOf_spec] at hle
        exact stmtGenSpec_while cond body li co
          ((ih (sizeOf body) (by omega)).2.1 body (le_refl _))
      | ifStmt cond thenB elifs elseB li co =>
        simp only [Stmt.ifStmt.sizeOf_spec] at hle
        refine stmtGenSpec_if cond thenB elifs elseB li co
          ((ih (sizeOf thenB) (by omega)).2.1 thenB (le_refl _))
          ((ih (sizeOf elifs) (by omega)).2.2 elifs (le_refl _)) ?_
        intro b hb
        subst hb
        simp only [Option.some.sizeOf_spec] at hle
        exact (ih (sizeOf b) (by omega)).2.1 b (le_refl _)
    · intro l hle
      cases l with
      | nil => exact stmtsGenSpec_nil
      | cons st rest =>
        simp only [List.cons.sizeOf_spec] at hle
        exact stmtsGenSpec_cons st rest
          ((ih (sizeOf st) (by omega)).1 st (le_refl _))
          ((ih (sizeOf rest) (by omega)).2.1 rest (le_refl _))
    · intro el hle
      cases el with
      | nil => exact elifsGenSpec_nil
      | cons p rest =>
        obtain ⟨cond, body⟩ := p
        simp only [List.cons.sizeOf_spec, Prod.mk.sizeOf_spec] at hle
        exact elifsGenSpec_cons cond body rest
          ((ih (sizeOf body) (by omega)).2.1 body (le_refl _))
          ((ih (sizeOf rest) (by omega)).2.2 rest (le_refl _))

theorem stmtsGenSpec_all (l : List Stmt) : StmtsGenSpec l :=
  (genSpecAll (sizeOf l)).2.1 l (le_refl _)

theorem stringData_inj {s t : String} (h : s.data = t.data) : s = t := by
  cases s
  cases t
  exact congrArg String.mk h

theorem natDigits_ne_nil (n : ℕ) : natDigits n ≠ [] := by
  by_cases h : n < 10
  · rw [natDigits_eq_of_lt h]; simp
  · rw [natDigits_eq_of_ge h]; simp

theorem repr_data (n : ℕ) : (Nat.repr n).data = natDigits n := by
  rw [Nat_repr_eq_natDigits]
  rfl

theorem mkLab_injective : Function.Injective mkLab := by
  intro m n h
  have hd := congrArg String.data h
  simp only [mkLab, String.data_append, List.singleton_append,
    show ("L" : String).data = ['L'] from rfl, List.cons.injEq, true_and] at hd
  exact Nat_repr_injective (stringData_inj hd)

theorem mkTemp_injective : Function.Injective mkTemp := by
  intro m n h
  have hd := congrArg String.data h
  simp only [mkTemp, String.data_append, List.singleton_append,
    show ("t" : String).data = ['t'] from rfl, List.cons.injEq, true_and] at hd
  exact Nat_repr_injective (stringData_inj hd)

theorem mkTemp_data (n : ℕ) : (mkTemp n).data = 't' :: natDigits n := by
  simp only [mkTemp, String.data_append, repr_data]
  rfl

theorem isCompilerTempName_mkTemp (n : ℕ) : isCompilerTempName (mkTemp n) = true := by
  unfold isCompilerTempName
  rw [mkTemp_data]
  simp [natDigits_ne_nil n, natDigits_all_isDigit n]

theorem genDecls_state (ds : List VarDeclaration) (s : GenState) :
    (genDecls ds s).instructions = s.instructions ∧
    (genDecls ds s).tempCounter = s.tempCounter ∧
    (genDecls ds s).labelCounter = s.labelCounter := by
  induction ds generalizing s with
  | nil => exact ⟨rfl, rfl, rfl⟩
  | cons d rest ih =>
    simpa [genDecls] using ih { s with vars := s.vars ++ [(d.name, d.type)] }

/-- The whole-program shape of the generator invariants: labels are the
`mkLab` image of an initial counter segment, jumps resolve, operation
targets are `t0, t1, …` in order, and assignments target AST variables. -/
theorem generateProgram_spec (p : Program) :
    ∃ kl kt,
      (labelNames (generateProgram p) : Multiset String) =
        ↑((List.range' 0 kl).map mkLab) ∧
      (∀ t ∈ jumpTargets (generateProgram p), t ∈ labelNames (generateProgram p)) ∧
      opTargets (generateProgram p) = (List.range' 0 kt).map mkTemp ∧
      (∀ v src, TACInstruction.assignment v src ∈ generateProgram p →
        v ∈ programAssignVars p) := by
  obtain ⟨δ, kl, kt, hi, _ht, _hl, _hv, hlab, hj, ho, ha⟩ :=
    stmtsGenSpec_all p.statements (genDecls p.declarations initGenState)
  obtain ⟨hdi, hdt, hdl⟩ := genDecls_state p.declarations initGenState
  have hgen : generateProgram p = δ := by
    unfold generateProgram
    rw [hi, hdi]
    rfl
  rw [hdl] at hlab
  rw [hdt] at ho
  refine ⟨kl, kt, ?_, ?_, ?_, ?_⟩
  · rw [hgen]; exact hlab
  · rw [hgen]; exact hj
  · rw [hgen]; exact ho
  · intro v src hmem
    rw [hgen] at hmem
    exact ha v src hmem

theorem writeTargets_count (l : List TACInstruction) (t : String) :
    (writeTargets l).count t = (assignTargets l).count t + (opTargets l).count t := by
  induction l with
  | nil => rfl
  | cons i rest ih =>
    cases i <;>
      simp only [writeTargets, assignTargets, opTargets, targetOf?,
        List.filterMap_cons, List.count_cons] at ih ⊢ <;>
      omega

theorem mem_assignTargets {l : List TACInstruction} {t : String}
    (h : t ∈ assignTargets l) : ∃ src, TACInstruction.assignment t src ∈ l := by
  simp only [assignTargets, List.mem_filterMap] at h
  obtain ⟨i, hi, hmatch⟩ := h
  cases i with
  | assignment v src =>
    refine ⟨src, ?_⟩
    simp only [Option.some.injEq] at hmatch
    rw [hmatch] at hi
    exact hi
  | print v => exact absurd hmatch (by simp)
  | binaryOperation a b c d => exact absurd hmatch (by simp)
  | unaryOperation a b c => exact absurd hmatch (by simp)
  | label a => exact absurd hmatch (by simp)
  | jump a => exact absurd hmatch (by simp)
  | conditionalJump a b => exact absurd hmatch (by simp)

/-- Claim C6 (confirmed): for every program accepted by semantic
analysis, every `Jump`/`ConditionalJump` in the generated TAC names a
target that occurs as a `Label` in the same sequence, and the label
names occurring in the sequence are pairwise distinct. -/
theorem c6_jumps_resolve_labels_unique (p : Program)
    (hok : analyze p = .ok ()) :
    (∀ t ∈ jumpTargets (generateProgram p), t ∈ labelNames (generateProgram p)) ∧
    (labelNames (generateProgram p)).Nodup := by
  obtain ⟨kl, kt, hlab, hj, ho, ha⟩ := generateProgram_spec p
  refine ⟨hj, ?_⟩
  have hperm : (labelNames (generateProgram p)).Perm ((List.range' 0 kl).map mkLab) :=
    Multiset.coe_eq_coe.mp hlab
  rw [hperm.nodup_iff, ← List.range_eq_range']
  exact List.Nodup.map mkLab_injective (List.nodup_range kl)

theorem c6_jumps_resolve_labels_unique_witness :
    analyze exProgram = .ok () ∧
    ((∀ t ∈ jumpTargets (generateProgram exProgram),
        t ∈ labelNames (generateProgram exProgram)) ∧
      (labelNames (generateProgram exProgram)).Nodup) :=
  ⟨by rfl, c6_jumps_resolve_labels_unique exProgram (by rfl)⟩

/-- Claim C10 (confirmed): in the pre-optimization TAC of any program
whose assignment-target variables are not shaped like compiler
temporaries, every `Assignment` targets a source-program variable
(never a compiler-generated temporary), the
`BinaryOperation`/`UnaryOperation` targets are `t0, t1, t2, …` in
emission order and pairwise distinct, and no temporary is the write
target of more than one instruction. -/
theorem c10_temps_fresh_assignments_user (p : Program)
    (hv : ∀ v ∈ programAssignVars p, isCompilerTempName v = false) :
    (∀ v src, TACInstruction.assignment v src ∈ generateProgram p →
        v ∈ programAssignVars p ∧ isCompilerTempName v = false) ∧
    (∃ k, opTargets (generateProgram p) = (List.range' 0 k).map mkTemp) ∧
    (opTargets (generateProgram p)).Nodup ∧
    (∀ t ∈ opTargets (generateProgram p),
      (writeTargets (generateProgram p)).count t ≤ 1) := by
  obtain ⟨kl, kt, hlab, hj, ho, ha⟩ := generateProgram_spec p
  have hnodup : (opTargets (generateProgram p)).Nodup := by
    rw [ho, ← List.range_eq_range']
    exact List.Nodup.map mkTemp_injective (List.nodup_range kt)
  refine ⟨?_, ⟨kt, ho⟩, hnodup, ?_⟩
  · intro v src hmem
    have hva := ha v src hmem
    exact ⟨hva, hv v hva⟩
  · intro t htmem
    have htemp : isCompilerTempName t = true := by
      rw [ho] at htmem
      obtain ⟨k, _, rfl⟩ := List.mem_map.mp htmem
      exact isCompilerTempName_mkTemp k
    have hassign : (assignTargets (generateProgram p)).count t = 0 := by
      rw [List.count_eq_zero]
      intro hmem
      obtain ⟨src, hsrc⟩ := mem_assignTargets hmem
      have hfalse := hv t (ha t src hsrc)
      rw [htemp] at hfalse
      exact absurd hfalse (by decide)
    have hop : (opTargets (generateProgram p)).count t ≤ 1 :=
      List.nodup_iff_count_le_one.mp hnodup t
    rw [writeTargets_count]
    omega

theorem c10_temps_fresh_assignments_user_witness :
    (∀ v ∈ programAssignVars exProgram, isCompilerTempName v = false) ∧
    ((∀ v src, TACInstruction.assignment v src ∈ generateProgram exProgram →
        v ∈ programAssignVars exProgram ∧ isCompilerTempName v = false) ∧
      (∃ k, opTargets (generateProgram exProgram) = (List.range' 0 k).map mkTemp) ∧
      (opTargets (generateProgram exProgram)).Nodup ∧
      (∀ t ∈ opTargets (generateProgram exProgram),
        (writeTargets (generateProgram exProgram)).count t ≤ 1)) :=
  ⟨by decide, c10_temps_fresh_assignments_user exProgram (by decide)⟩

/-- Claim C1 (code_bug): `visit_if_statement` checks the condition,
the then block and the else block but never iterates `elif_blocks`, so
a program whose elif branch has a non-boolean (`bombardino`) condition
and whose elif body assigns to an undeclared variable still passes
`analyze` — the spec requires it to be rejected. -/
theorem c1_elif_blocks_never_checked :
    analyze elifBugProgram = .ok () ∧
    declareAll elifBugProgram.declarations [] = .ok elifBugTable ∧
    visitExpression elifBugTable (.identifier "x" 4 14) = .ok "bombardino" ∧
    visitStatements elifBugTable [.assignmentStmt "y" (.literal (.int 1) 5 7) 5 1] =
      .error "Undefined variable 'y' at line 5, column 1" :=
  ⟨rfl, rfl, rfl, rfl⟩

/-- Claim C8 (code_bug): `LexicalError` and `ParseError` are structured
values carrying (message, line, column), but the source's
`SemanticError` is a bare `Exception` subclass with no `line`/`column`
fields, so a semantic failure surfaces as only a message string with
the position interpolated into the text (and `main.py`'s reads of
`e.line`/`e.column` on it cannot be supported by the type). -/
theorem c8_semantic_error_has_no_position_fields :
    (∀ e : LexicalError, e = ⟨e.message, e.line, e.column⟩) ∧
    (∀ e : ParseError, e = ⟨e.message, e.line, e.column⟩) ∧
    analyze undeclProgram = .error "Undefined variable 'x' at line 1, column 1" :=
  ⟨fun _ => rfl, fun _ => rfl, rfl⟩

/-! ## Lemmas: lexer termination and EOF structure (claim C9) -/

theorem exceptBind_ok {ε α β : Type} {x : Except ε α} {f : α → Except ε β} {b : β}
    (h : x >>= f = .ok b) : ∃ a, x = .ok a ∧ f a = .ok b := by
  cases x with
  | error e => exact absurd h (by simp [Bind.bind, Except.bind])
  | ok a => exact ⟨a, rfl, by simpa [Bind.bind, Except.bind] using h⟩

theorem keywordLookup_ne_eof (w : String) : keywordLookup w ≠ .EOF := by
  unfold keywordLookup
  split_ifs <;> decide

theorem operatorLookup_ne_eof {w : String} {tt : TokenType}
    (h : operatorLookup w = some tt) : tt ≠ .EOF := by
  unfold operatorLookup at h
  by_cases h0 : w = "+"
  · rw [if_pos h0] at h; injection h with he; subst he; decide
  · rw [if_neg h0] at h
    by_cases h1 : w = "-"
    · rw [if_pos h1] at h; injection h with he; subst he; decide
    · rw [if_neg h1] at h
      by_cases h2 : w = "*"
      · rw [if_pos h2] at h; injection h with he; subst he; decide
      · rw [if_neg h2] at h
        by_cases h3 : w = "/"
        · rw [if_pos h3] at h; injection h with he; subst he; decide
        · rw [if_neg h3] at h
          by_cases h4 : w = "="
          · rw [if_pos h4] at h; injection h with he; subst he; decide
          · rw [if_neg h4] at h
            by_cases h5 : w = "=="
            · rw [if_pos h5] at h; injection h with he; subst he; decide
            · rw [if_neg h5] at h
              by_cases h6 : w = "!="
              · rw [if_pos h6] at h; injection h with he; subst he; decide
              · rw [if_neg h6] at h
                by_cases h7 : w = "<"
                · rw [if_pos h7] at h; injection h with he; subst he; decide
                · rw [if_neg h7] at h
                  by_cases h8 : w = ">"
                  · rw [if_pos h8] at h; injection h with he; subst he; decide
                  · rw [if_neg h8] at h
                    by_cases h9 : w = "("
                    · rw [if_pos h9] at h; injection h with he; subst he; decide
                    · rw [if_neg h9] at h
                      by_cases h10 : w = ")"
                      · rw [if_pos h10] at h; injection h with he; subst he; decide
                      · rw [if_neg h10] at h
                        by_cases h11 : w = "\x7b"
                        · rw [if_pos h11] at h; injection h with he; subst he; decide
                        · rw [if_neg h11] at h
                          by_cases h12 : w = "\x7d"
                          · rw [if_pos h12] at h; injection h with he; subst he; decide
                          · rw [if_neg h12] at h
                            by_cases h13 : w = ";"
                            · rw [if_pos h13] at h; injection h with he; subst he; decide
                            · rw [if_neg h13] at h
                              by_cases h14 : w = "<="
                              · rw [if_pos h14] at h; injection h with he; subst he; decide
                              · rw [if_neg h14] at h
                                by_cases h15 : w = ">="
                                · rw [if_pos h15] at h; injection h with he; subst he; decide
                                · rw [if_neg h15] at h
                                  cases h

theorem readNumberAux_ok_source (s : LexState) (acc : String) (isFloat : Bool) :
    ∀ r, readNumberAux s acc isFloat = .ok r → r.2.2.source = s.source := by
  induction s, acc, isFloat using readNumberAux.induct with
  | case1 s acc h hdig hdot =>
    intro r hr
    rw [readNumberAux] at hr
    simp only [dif_pos h] at hr
    rw [if_pos hdig, if_pos hdot] at hr
    simp at hr
  | case2 s acc isFloat h hdig hdot hisf ih =>
    intro r hr
    rw [readNumberAux] at hr
    simp only [dif_pos h] at hr
    rw [if_pos hdig, if_pos hdot, if_neg hisf] at hr
    rw [ih r hr, advance_source]
  | case3 s acc isFloat h hdig hdot ih =>
    intro r hr
    rw [readNumberAux] at hr
    simp only [dif_pos h] at hr
    rw [if_pos hdig, if_neg hdot] at hr
    rw [ih r hr, advance_source]
  | case4 s acc isFloat h hdig =>
    intro r hr
    rw [readNumberAux] at hr
    simp only [dif_pos h] at hr
    rw [if_neg hdig] at hr
    cases hr
    rfl
  | case5 s acc isFloat h =>
    intro r hr
    rw [readNumberAux, dif_neg h] at hr
    cases hr
    rfl

/-- One successful `get_next_token` step preserves the source, and a
non-EOF token is only produced from a strictly advancing in-bounds
position. -/
theorem getNextToken_ok (s : LexState) :
    ∀ tok s2, getNextToken s = .ok (tok, s2) →
      s2.source = s.source ∧
      (tok.type ≠ .EOF → s.position < s2.position ∧ s.position < s.source.length) := by
  induction s using getNextToken.induct with
  | case1 s hlt hsp ih =>
    intro tok s2 h
    rw [getNextToken, dif_pos hlt, dif_pos hsp] at h
    obtain ⟨hsrc, hpos⟩ := ih tok s2 h
    have h1 := skipWhitespace_source s
    have h2 := skipWhitespace_progress hlt hsp
    constructor
    · rw [hsrc, h1]
    · intro hne
      have h3 := (hpos hne).1
      exact ⟨by omega, hlt⟩
  | case2 s hlt hsp hhash ih =>
    intro tok s2 h
    rw [getNextToken, dif_pos hlt, dif_neg hsp, if_pos hhash] at h
    obtain ⟨hsrc, hpos⟩ := ih tok s2 h
    have h1 := skipComment_source s
    have h2 := skipComment_progress s
    constructor
    · rw [hsrc, h1]
    · intro hne
      have h3 := (hpos hne).1
      exact ⟨by omega, hlt⟩
  | case3 s hlt hsp hhash halpha =>
    intro tok s2 h
    rw [getNextToken, dif_pos hlt, dif_neg hsp, if_neg hhash, if_pos halpha] at h
    rcases hri : readIdentAux s "" with ⟨r, s3⟩
    simp only [readIdentifier, hri, Except.ok.injEq, Prod.mk.injEq] at h
    obtain ⟨htok, hs2⟩ := h
    subst hs2
    have hcond : ((s.source.get ⟨s.position, hlt⟩).isAlphanum ||
        s.source.get ⟨s.position, hlt⟩ = '_') = true := by
      rcases (Bool.or_eq_true _ _).mp halpha with hA | hU
      · have han : (s.source.get ⟨s.position, hlt⟩).isAlphanum = true := by
          unfold Char.isAlphanum
          rw [hA]
          rfl
        rw [han]
        rfl
      · rw [hU, Bool.or_true]
    have hstep : s.position < (readIdentAux s "").2.position := by
      rw [readIdentAux]
      simp only [dif_pos hlt]
      rw [if_pos hcond]
      have h1 := readIdentAux_position_ge (advance s)
        ("".push (s.source.get ⟨s.position, hlt⟩))
      have h2 := advance_position s
      omega
    rw [hri] at hstep
    have hsrc := readIdentAux_source s ""
    rw [hri] at hsrc
    exact ⟨hsrc, fun _ => ⟨hstep, hlt⟩⟩
  | case4 s hlt hsp hhash halpha hdig =>
    intro tok s2 h
    rw [getNextToken, dif_pos hlt, dif_neg hsp, if_neg hhash, if_neg halpha,
      if_pos hdig] at h
    unfold readNumber at h
    obtain ⟨⟨result, isFloat, s3⟩, haux, h⟩ := exceptBind_ok h
    simp only [Except.ok.injEq, Prod.mk.injEq] at h
    obtain ⟨htok, hs2⟩ := h
    subst hs2
    have hdot : ¬ s.source.get ⟨s.position, hlt⟩ = '.' := by
      intro he
      rw [he] at hdig
      exact absurd hdig (by decide)
    have hdigcond : ((s.source.get ⟨s.position, hlt⟩).isDigit ||
        s.source.get ⟨s.position, hlt⟩ = '.') = true := by
      rw [hdig]
      rfl
    have hstep : s.position < s3.position := by
      rw [readNumberAux] at haux
      simp only [dif_pos hlt] at haux
      rw [if_pos hdigcond, if_neg hdot] at haux
      have := readNumberAux_ok_position_ge (advance s) _ _ _ haux
      have h2 := advance_position s
      simp only at this
      omega
    have hsrc : s3.source = s.source := by
      rw [readNumberAux] at haux
      simp only [dif_pos hlt] at haux
      rw [if_pos hdigcond, if_neg hdot] at haux
      have := readNumberAux_ok_source (advance s) _ _ _ haux
      simp only at this
      rw [this, advance_source]
    exact ⟨hsrc, fun _ => ⟨hstep, hlt⟩⟩
  | case5 s hlt hsp hhash halpha hdig tt hmatch =>
    intro tok s2 h
    rw [getNextToken, dif_pos hlt, dif_neg hsp, if_neg hhash, if_neg halpha,
      if_neg hdig] at h
    rw [hmatch] at h
    simp only [Except.ok.injEq, Prod.mk.injEq] at h
    obtain ⟨htok, hs2⟩ := h
    subst hs2
    have h1 := advance_position s
    have h2 := advance_position (advance s)
    have h3 := advance_source s
    have h4 := advance_source (advance s)
    refine ⟨by rw [h4, h3], fun _ => ⟨by omega, hlt⟩⟩
  | case6 s hlt hsp hhash halpha hdig hm1 tt hmatch =>
    intro tok s2 h
    rw [getNextToken, dif_pos hlt, dif_neg hsp, if_neg hhash, if_neg halpha,
      if_neg hdig] at h
    rw [hm1, hmatch] at h
    simp only [Except.ok.injEq, Prod.mk.injEq] at h
    obtain ⟨htok, hs2⟩ := h
    subst hs2
    have h1 := advance_position s
    have h3 := advance_source s
    refine ⟨h3, fun _ => ⟨by omega, hlt⟩⟩
  | case7 s hlt hsp hhash halpha hdig hm1 hm2 =>
    intro tok s2 h
    rw [getNextToken, dif_pos hlt, dif_neg hsp, if_neg hhash, if_neg halpha,
      if_neg hdig] at h
    rw [hm1, hm2] at h
    exact absurd h (by simp)
  | case8 s hlt =>
    intro tok s2 h
    rw [getNextToken, dif_neg hlt] at h
    simp only [Except.ok.injEq, Prod.mk.injEq] at h
    obtain ⟨htok, hs2⟩ := h
    subst hs2
    refine ⟨rfl, fun hne => ?_⟩
    rw [← htok] at hne
    exact absurd rfl hne

/-- `source length - position + 1` fuel always suffices: the tokenize
loop cannot run out before hitting an EOF or an error. -/
theorem tokenizeSteps_some (fuel : ℕ) :
    ∀ s acc, s.source.length - s.position < fuel → tokenizeSteps fuel s acc ≠ none := by
  induction fuel with
  | zero => intro s acc h; omega
  | succ f ih =>
    intro s acc h
    cases hg : getNextToken s with
    | error e =>
      rw [tokenizeSteps, hg]
      simp
    | ok r =>
      rcases r with ⟨tok, s2⟩
      rw [tokenizeSteps, hg]
      dsimp only
      by_cases he : tok.type = .EOF
      · rw [if_pos he]
        simp
      · rw [if_neg he]
        obtain ⟨hsrc, hpos⟩ := getNextToken_ok s tok s2 hg
        obtain ⟨h1, h2⟩ := hpos he
        apply ih
        rw [hsrc]
        omega

theorem tokenizeSteps_ok_structure (fuel : ℕ) :
    ∀ s acc ts, tokenizeSteps fuel s acc = some (.ok ts) →
      ∃ mid lastTok, ts = acc ++ mid ++ [lastTok] ∧ lastTok.type = .EOF ∧
        ∀ t ∈ mid, t.type ≠ .EOF := by
  induction fuel with
  | zero =>
    intro s acc ts h
    rw [tokenizeSteps] at h
    cases h
  | succ f ih =>
    intro s acc ts h
    cases hg : getNextToken s with
    | error e =>
      rw [tokenizeSteps, hg] at h
      simp at h
    | ok r =>
      rcases r with ⟨tok, s2⟩
      rw [tokenizeSteps, hg] at h
      dsimp only at h
      by_cases he : tok.type = .EOF
      · rw [if_pos he] at h
        simp only [Option.some.injEq, Except.ok.injEq] at h
        exact ⟨[], tok, by rw [← h]; simp, he, by simp⟩
      · rw [if_neg he] at h
        obtain ⟨mid, lastTok, hts, hlast, hmid⟩ := ih s2 (acc ++ [tok]) ts h
        refine ⟨tok :: mid, lastTok, ?_, hlast, ?_⟩
        · rw [hts]; simp
        · intro t ht
          rcases List.mem_cons.mp ht with h1 | h1
          · rw [h1]; exact he
          · exact hmid t h1

theorem tokenize_ok_structure (src : String) (ts : List Token)
    (h : tokenize src = .ok ts) :
    ∃ mid lastTok, ts = mid ++ [lastTok] ∧ lastTok.type = .EOF ∧
      ∀ t ∈ mid, t.type ≠ .EOF := by
  unfold tokenize at h
  cases hg : tokenizeSteps (src.data.length + 1) (initLex src) [] with
  | none =>
    rw [hg] at h
    cases h
  | some r =>
    rw [hg] at h
    cases r with
    | error e => cases h
    | ok ts2 =>
      injection h with h2
      subst h2
      obtain ⟨mid, lastTok, hts, hlast, hmid⟩ :=
        tokenizeSteps_ok_structure _ _ _ _ hg
      exact ⟨mid, lastTok, by rw [hts]; simp, hlast, hmid⟩

/-- Claim C9 (confirmed): tokenization terminates for every input
(fuel `source length + 1` never runs out), every successful run
returns a token list whose last element is an EOF token and in which
EOF occurs exactly once, and the empty source yields exactly one EOF
token. -/
theorem c9_tokenize_terminates_one_eof :
    (∀ src : String, tokenizeSteps (src.data.length + 1) (initLex src) [] ≠ none) ∧
    (∀ src ts, tokenize src = .ok ts →
      ∃ mid lastTok, ts = mid ++ [lastTok] ∧ lastTok.type = .EOF ∧
        (∀ t ∈ mid, t.type ≠ .EOF) ∧ (ts.map Token.type).count .EOF = 1) ∧
    tokenize "" = .ok [⟨.EOF, "", 1, 1⟩] := by
  refine ⟨?_, ?_, by simp [tokenize, tokenizeSteps, getNextToken, initLex]⟩
  · intro src
    apply tokenizeSteps_some
    simp [initLex]
  · intro src ts h
    obtain ⟨mid, lastTok, hts, hlast, hmid⟩ := tokenize_ok_structure src ts h
    refine ⟨mid, lastTok, hts, hlast, hmid, ?_⟩
    rw [hts]
    have h0 : (mid.map Token.type).count TokenType.EOF = 0 := by
      rw [List.count_eq_zero]
      intro hc
      obtain ⟨t, htm, hteq⟩ := List.mem_map.mp hc
      exact hmid t htm hteq
    rw [List.map_append, List.count_append, h0, List.map_singleton,
      List.count_singleton', hlast]
    rfl

theorem c9_tokenize_terminates_one_eof_witness :
    tokenize "drip" = .ok [⟨.PRINT, "drip", 1, 1⟩, ⟨.EOF, "", 1, 5⟩] ∧
    (∃ mid lastTok,
      [(⟨.PRINT, "drip", 1, 1⟩ : Token), ⟨.EOF, "", 1, 5⟩] = mid ++ [lastTok] ∧
      lastTok.type = .EOF ∧ (∀ t ∈ mid, t.type ≠ .EOF) ∧
      (([(⟨.PRINT, "drip", 1, 1⟩ : Token), ⟨.EOF, "", 1, 5⟩]).map Token.type).count
        .EOF = 1) :=
  ⟨(by
    simp +decide [tokenize, tokenizeSteps, getNextToken, initLex, readIdentifier,
      readIdentAux, advance, readNumber, readNumberAux, skipWhitespace, skipComment,
      skipCommentAux, currentChar, peekChar, operatorLookup, keywordLookup, strLower,
      pyIsSpace]),
   c9_tokenize_terminates_one_eof.2.1 "drip"
    [⟨.PRINT, "drip", 1, 1⟩, ⟨.EOF, "", 1, 5⟩] (by
    simp +decide [tokenize, tokenizeSteps, getNextToken, initLex, readIdentifier,
      readIdentAux, advance, readNumber, readNumberAux, skipWhitespace, skipComment,
      skipCommentAux, currentChar, peekChar, operatorLookup, keywordLookup, strLower,
      pyIsSpace])⟩

/-! ## Lemmas: the parser never consumes `<=`/`>=` (claim C7) -/

theorem noLeGe_refl (ts : List Token) (p : ℕ) : NoLeGeConsumed ts p p :=
  ⟨le_refl _, fun _ h1 h2 => absurd h2 (by omega)⟩

theorem noLeGe_trans {ts : List Token} {p q r : ℕ} (h1 : NoLeGeConsumed ts p q)
    (h2 : NoLeGeConsumed ts q r) : NoLeGeConsumed ts p r := by
  refine ⟨le_trans h1.1 h2.1, fun i hi1 hi2 => ?_⟩
  by_cases hq : i < q
  · exact h1.2 i hi1 hq
  · exact h2.2 i (by omega) hi2

theorem noLeGe_step {ts : List Token} {p : ℕ}
    (h1 : (peekTok ts p).type ≠ TokenType.LESS_THAN_OR_EQUAL)
    (h2 : (peekTok ts p).type ≠ TokenType.GREATER_THAN_OR_EQUAL) :
    NoLeGeConsumed ts p (p + 1) := by
  refine ⟨by omega, fun i hi1 hi2 => ?_⟩
  have he : i = p := by omega
  subst he
  exact ⟨h1, h2⟩

theorem noLeGe_step_of_mem {ts : List Token} {p : ℕ} {l : List TokenType}
    (h : (peekTok ts p).type ∈ l)
    (h1 : TokenType.LESS_THAN_OR_EQUAL ∉ l)
    (h2 : TokenType.GREATER_THAN_OR_EQUAL ∉ l) :
    NoLeGeConsumed ts p (p + 1) :=
  noLeGe_step (fun he => h1 (he ▸ h)) (fun he => h2 (he ▸ h))

theorem noLeGe_step_of_eq {ts : List Token} {p : ℕ} {tt : TokenType}
    (h : (peekTok ts p).type = tt)
    (h1 : tt ≠ TokenType.LESS_THAN_OR_EQUAL)
    (h2 : tt ≠ TokenType.GREATER_THAN_OR_EQUAL) :
    NoLeGeConsumed ts p (p + 1) :=
  noLeGe_step (fun he => h1 (h ▸ he)) (fun he => h2 (h ▸ he))

theorem matchTok_ok {ts : List Token} {p : ℕ} {expected : TokenType}
    {tok : Token} {q : ℕ} (h : matchTok ts p expected = .ok (tok, q)) :
    q = p + 1 ∧ (peekTok ts p).type = expected := by
  unfold matchTok at h
  cases hg : ts.get? p with
  | none =>
    rw [hg] at h
    cases h
  | some t =>
    rw [hg] at h
    dsimp only at h
    by_cases he : t.type = expected
    · rw [if_pos he] at h
      simp only [Except.ok.injEq, Prod.mk.injEq] at h
      obtain ⟨htok, hq⟩ := h
      exact ⟨hq.symm, by rw [peekTok, hg]; exact he⟩
    · rw [if_neg he] at h
      cases h

theorem noLeGe_match {ts : List Token} {p : ℕ} {expected : TokenType}
    {tok : Token} {q : ℕ} (h : matchTok ts p expected = .ok (tok, q))
    (h1 : expected ≠ TokenType.LESS_THAN_OR_EQUAL)
    (h2 : expected ≠ TokenType.GREATER_THAN_OR_EQUAL) :
    NoLeGeConsumed ts p q := by
  obtain ⟨hq, hty⟩ := matchTok_ok h
  subst hq
  exact noLeGe_step_of_eq hty h1 h2

theorem parseDeclaration_noLeGe {ts : List Token} {p : ℕ}
    {r : VarDeclaration × ℕ} (h : parseDeclaration ts p = .ok r) :
    NoLeGeConsumed ts p r.2 := by
  obtain ⟨d, q⟩ := r
  unfold parseDeclaration at h
  obtain ⟨⟨t1, p1⟩, h1, h⟩ := exceptBind_ok h
  obtain ⟨⟨t2, p2⟩, h2, h⟩ := exceptBind_ok h
  obtain ⟨⟨t3, p3⟩, h3, h⟩ := exceptBind_ok h
  have k1 := noLeGe_match h1 (by decide) (by decide)
  have k2 := noLeGe_match h2 (by decide) (by decide)
  have k3 := noLeGe_match h3 (by decide) (by decide)
  dsimp only at h
  by_cases hc : (peekTok ts p3).type = TokenType.INTEGER
  · rw [if_pos hc] at h
    obtain ⟨⟨t4, p4⟩, h4, h⟩ := exceptBind_ok h
    obtain ⟨⟨t5, p5⟩, h5, h⟩ := exceptBind_ok h
    simp only [Except.ok.injEq, Prod.mk.injEq] at h
    obtain ⟨hd, hq⟩ := h
    subst hq
    exact noLeGe_trans k1 (noLeGe_trans k2 (noLeGe_trans k3
      (noLeGe_trans (noLeGe_match h4 (by decide) (by decide))
        (noLeGe_match h5 (by decide) (by decide)))))
  · rw [if_neg hc] at h
    obtain ⟨⟨t4, p4⟩, h4, h⟩ := exceptBind_ok h
    obtain ⟨⟨t5, p5⟩, h5, h⟩ := exceptBind_ok h
    simp only [Except.ok.injEq, Prod.mk.injEq] at h
    obtain ⟨hd, hq⟩ := h
    subst hq
    exact noLeGe_trans k1 (noLeGe_trans k2 (noLeGe_trans k3
      (noLeGe_trans (noLeGe_match h4 (by decide) (by decide))
        (noLeGe_match h5 (by decide) (by decide)))))

/-- No parser function ever consumes a `<=` or `>=` token: every
successful parse from position `p` to position `q` passed only over
tokens of other types, and a successful `parse_program` additionally
ends looking at EOF. -/
theorem parser_noLeGe : ∀ fuel : ℕ,
    (∀ ts p r, parseProgram fuel ts p = .ok r →
      NoLeGeConsumed ts p r.2 ∧ (peekTok ts r.2).type = .EOF) ∧
    (∀ ts p r, parseDeclarations fuel ts p = .ok r → NoLeGeConsumed ts p r.2) ∧
    (∀ ts p r, parseStatementsUntilEOF fuel ts p = .ok r →
      NoLeGeConsumed ts p r.2 ∧ (peekTok ts r.2).type = .EOF) ∧
    (∀ ts p r, parseStatementsUntilRBrace fuel ts p = .ok r → NoLeGeConsumed ts p r.2) ∧
    (∀ ts p r, parseStatement fuel ts p = .ok r → NoLeGeConsumed ts p r.2) ∧
    (∀ ts p r, parseAssignment fuel ts p = .ok r → NoLeGeConsumed ts p r.2) ∧
    (∀ ts p r, parseIfStatement fuel ts p = .ok r → NoLeGeConsumed ts p r.2) ∧
    (∀ ts p r, parseElifBlocks fuel ts p = .ok r → NoLeGeConsumed ts p r.2) ∧
    (∀ ts p r, parseWhileStatement fuel ts p = .ok r → NoLeGeConsumed ts p r.2) ∧
    (∀ ts p r, parsePrintStatement fuel ts p = .ok r → NoLeGeConsumed ts p r.2) ∧
    (∀ ts p r, parseExpression fuel ts p = .ok r → NoLeGeConsumed ts p r.2) ∧
    (∀ ts p r, parseComparison fuel ts p = .ok r → NoLeGeConsumed ts p r.2) ∧
    (∀ ts p e r, parseComparisonLoop fuel ts p e = .ok r → NoLeGeConsumed ts p r.2) ∧
    (∀ ts p r, parseAdditive fuel ts p = .ok r → NoLeGeConsumed ts p r.2) ∧
    (∀ ts p e r, parseAdditiveLoop fuel ts p e = .ok r → NoLeGeConsumed ts p r.2) ∧
    (∀ ts p r, parseMultiplicative fuel ts p = .ok r → NoLeGeConsumed ts p r.2) ∧
    (∀ ts p e r, parseMultiplicativeLoop fuel ts p e = .ok r → NoLeGeConsumed ts p r.2) ∧
    (∀ ts p r, parsePrimary fuel ts p = .ok r → NoLeGeConsumed ts p r.2) := by
  intro fuel
  induction fuel with
  | zero =>
    refine ⟨?_, ?_, ?_, ?_, ?_, ?_, ?_, ?_, ?_, ?_, ?_, ?_, ?_, ?_, ?_, ?_, ?_, ?_⟩
    · intro ts p r h
      rw [parseProgram] at h
      cases h
    · intro ts p r h
      rw [parseDeclarations] at h
      cases h
    · intro ts p r h
      rw [parseStatementsUntilEOF] at h
      cases h
    · intro ts p r h
      rw [parseStatementsUntilRBrace] at h
      cases h
    · intro ts p r h
      rw [parseStatement] at h
      cases h
    · intro ts p r h
      rw [parseAssignment] at h
      cases h
    · intro ts p r h
      rw [parseIfStatement] at h
      cases h
    · intro ts p r h
      rw [parseElifBlocks] at h
      cases h
    · intro ts p r h
      rw [parseWhileStatement] at h
      cases h
    · intro ts p r h
      rw [parsePrintStatement] at h
      cases h
    · intro ts p r h
      rw [parseExpression] at h
      cases h
    · intro ts p r h
      rw [parseComparison] at h
      cases h
    · intro ts p e r h
      rw [parseComparisonLoop] at h
      cases h
    · intro ts p r h
      rw [parseAdditive] at h
      cases h
    · intro ts p e r h
      rw [parseAdditiveLoop] at h
      cases h
    · intro ts p r h
      rw [parseMultiplicative] at h
      cases h
    · intro ts p e r h
      rw [parseMultiplicativeLoop] at h
      cases h
    · intro ts p r h
      rw [parsePrimary] at h
      cases h
  | succ n ih =>
    obtain ⟨ihProg, ihDecls, ihSE, ihSR, ihStmt, ihAsn, ihIf, ihElif, ihWhile,
      ihPrint, ihExpr, ihCmp, ihCmpL, ihAdd, ihAddL, ihMul, ihMulL, ihPrim⟩ := ih
    refine ⟨?_, ?_, ?_, ?_, ?_, ?_, ?_, ?_, ?_, ?_, ?_, ?_, ?_, ?_, ?_, ?_, ?_, ?_⟩
    · intro ts p r h
      obtain ⟨prog, q⟩ := r
      rw [parseProgram] at h
      obtain ⟨⟨decls, p1⟩, h1, h⟩ := exceptBind_ok h
      obtain ⟨⟨stmts, p2⟩, h2, h⟩ := exceptBind_ok h
      simp only [Except.ok.injEq, Prod.mk.injEq] at h
      obtain ⟨hpr, hq⟩ := h
      subst hq
      obtain ⟨k2, keof⟩ := ihSE ts p1 (stmts, p2) h2
      exact ⟨noLeGe_trans (ihDecls ts p (decls, p1) h1) k2, keof⟩
    · intro ts p r h
      obtain ⟨ds0, q⟩ := r
      rw [parseDeclarations] at h
      by_cases hc : (peekTok ts p).type = TokenType.VAR
      · rw [if_pos hc] at h
        obtain ⟨⟨d, p1⟩, h1, h⟩ := exceptBind_ok h
        obtain ⟨⟨ds, p2⟩, h2, h⟩ := exceptBind_ok h
        simp only [Except.ok.injEq, Prod.mk.injEq] at h
        obtain ⟨hds, hq⟩ := h
        subst hq
        exact noLeGe_trans (parseDeclaration_noLeGe h1) (ihDecls ts p1 (ds, p2) h2)
      · rw [if_neg hc] at h
        simp only [Except.ok.injEq, Prod.mk.injEq] at h
        obtain ⟨hds, hq⟩ := h
        subst hq
        exact noLeGe_refl ts p
    · intro ts p r h
      obtain ⟨l, q⟩ := r
      rw [parseStatementsUntilEOF] at h
      by_cases hc : (peekTok ts p).type ≠ TokenType.EOF
      · rw [if_pos hc] at h
        obtain ⟨⟨st, p1⟩, h1, h⟩ := exceptBind_ok h
        obtain ⟨⟨rest, p2⟩, h2, h⟩ := exceptBind_ok h
        simp only [Except.ok.injEq, Prod.mk.injEq] at h
        obtain ⟨hl, hq⟩ := h
        subst hq
        obtain ⟨k2, keof⟩ := ihSE ts p1 (rest, p2) h2
        exact ⟨noLeGe_trans (ihStmt ts p (st, p1) h1) k2, keof⟩
      · rw [if_neg hc] at h
        simp only [Except.ok.injEq, Prod.mk.injEq] at h
        obtain ⟨hl, hq⟩ := h
        subst hq
        push_neg at hc
        exact ⟨noLeGe_refl ts p, hc⟩
    · intro ts p r h
      obtain ⟨l, q⟩ := r
      rw [parseStatementsUntilRBrace] at h
      by_cases hc : (peekTok ts p).type ≠ TokenType.RBRACE
      · rw [if_pos hc] at h
        obtain ⟨⟨st, p1⟩, h1, h⟩ := exceptBind_ok h
        obtain ⟨⟨rest, p2⟩, h2, h⟩ := exceptBind_ok h
        simp only [Except.ok.injEq, Prod.mk.injEq] at h
        obtain ⟨hl, hq⟩ := h
        subst hq
        exact noLeGe_trans (ihStmt ts p (st, p1) h1) (ihSR ts p1 (rest, p2) h2)
      · rw [if_neg hc] at h
        simp only [Except.ok.injEq, Prod.mk.injEq] at h
        obtain ⟨hl, hq⟩ := h
        subst hq
        exact noLeGe_refl ts p
    · intro ts p r h
      rw [parseStatement] at h
      by_cases hc1 : (peekTok ts p).type = TokenType.IDENTIFIER
      · rw [if_pos hc1] at h
        exact ihAsn ts p r h
      · rw [if_neg hc1] at h
        by_cases hc2 : (peekTok ts p).type = TokenType.IF
        · rw [if_pos hc2] at h
          exact ihIf ts p r h
        · rw [if_neg hc2] at h
          by_cases hc3 : (peekTok ts p).type = TokenType.WHILE
          · rw [if_pos hc3] at h
            exact ihWhile ts p r h
          · rw [if_neg hc3] at h
            by_cases hc4 : (peekTok ts p).type = TokenType.PRINT
            · rw [if_pos hc4] at h
              exact ihPrint ts p r h
            · rw [if_neg hc4] at h
              cases h
    · intro ts p r h
      obtain ⟨st, q⟩ := r
      rw [parseAssignment] at h
      obtain ⟨⟨t1, p1⟩, h1, h⟩ := exceptBind_ok h
      obtain ⟨⟨t2, p2⟩, h2, h⟩ := exceptBind_ok h
      obtain ⟨⟨e, p3⟩, h3, h⟩ := exceptBind_ok h
      obtain ⟨⟨t4, p4⟩, h4, h⟩ := exceptBind_ok h
      simp only [Except.ok.injEq, Prod.mk.injEq] at h
      obtain ⟨hst, hq⟩ := h
      subst hq
      exact noLeGe_trans (noLeGe_match h1 (by decide) (by decide))
        (noLeGe_trans (noLeGe_match h2 (by decide) (by decide))
          (noLeGe_trans (ihExpr ts p2 (e, p3) h3)
            (noLeGe_match h4 (by decide) (by decide))))
    · intro ts p r h
      obtain ⟨st, q⟩ := r
      rw [parseIfStatement] at h
      obtain ⟨⟨tIf, p1⟩, h1, h⟩ := exceptBind_ok h
      obtain ⟨⟨tl, p2⟩, h2, h⟩ := exceptBind_ok h
      obtain ⟨⟨cond, p3⟩, h3, h⟩ := exceptBind_ok h
      obtain ⟨⟨tr, p4⟩, h4, h⟩ := exceptBind_ok h
      obtain ⟨⟨tb, p5⟩, h5, h⟩ := exceptBind_ok h
      obtain ⟨⟨thenB, p6⟩, h6, h⟩ := exceptBind_ok h
      obtain ⟨⟨trb, p7⟩, h7, h⟩ := exceptBind_ok h
      obtain ⟨⟨elifs, p8⟩, h8, h⟩ := exceptBind_ok h
      have kpre : NoLeGeConsumed ts p p8 :=
        noLeGe_trans (noLeGe_match h1 (by decide) (by decide))
          (noLeGe_trans (noLeGe_match h2 (by decide) (by decide))
            (noLeGe_trans (ihExpr ts p2 (cond, p3) h3)
              (noLeGe_trans (noLeGe_match h4 (by decide) (by decide))
                (noLeGe_trans (noLeGe_match h5 (by decide) (by decide))
                  (noLeGe_trans (ihSR ts p5 (thenB, p6) h6)
                    (noLeGe_trans (noLeGe_match h7 (by decide) (by decide))
                      (ihElif ts p7 (elifs, p8) h8)))))))
      dsimp only at h
      by_cases hc : (peekTok ts p8).type = TokenType.ELSE
      · rw [if_pos hc] at h
        obtain ⟨⟨te, p9⟩, h9, h⟩ := exceptBind_ok h
        obtain ⟨⟨tlb, p10⟩, h10, h⟩ := exceptBind_ok h
        obtain ⟨⟨elseB, p11⟩, h11, h⟩ := exceptBind_ok h
        obtain ⟨⟨trb2, p12⟩, h12, h⟩ := exceptBind_ok h
        simp only [Except.ok.injEq, Prod.mk.injEq] at h
        obtain ⟨hst, hq⟩ := h
        subst hq
        exact noLeGe_trans kpre
          (noLeGe_trans (noLeGe_match h9 (by decide) (by decide))
            (noLeGe_trans (noLeGe_match h10 (by decide) (by decide))
              (noLeGe_trans (ihSR ts p10 (elseB, p11) h11)
                (noLeGe_match h12 (by decide) (by decide)))))
      · rw [if_neg hc] at h
        simp only [Except.ok.injEq, Prod.mk.injEq] at h
        obtain ⟨hst, hq⟩ := h
        subst hq
        exact kpre
    · intro ts p r h
      obtain ⟨el, q⟩ := r
      rw [parseElifBlocks] at h
      by_cases hc : (peekTok ts p).type = TokenType.IF
      · rw [if_pos hc] at h
        obtain ⟨⟨t1, p1⟩, h1, h⟩ := exceptBind_ok h
        obtain ⟨⟨t2, p2⟩, h2, h⟩ := exceptBind_ok h
        obtain ⟨⟨c, p3⟩, h3, h⟩ := exceptBind_ok h
        obtain ⟨⟨t4, p4⟩, h4, h⟩ := exceptBind_ok h
        obtain ⟨⟨t5, p5⟩, h5, h⟩ := exceptBind_ok h
        obtain ⟨⟨body, p6⟩, h6, h⟩ := exceptBind_ok h
        obtain ⟨⟨t7, p7⟩, h7, h⟩ := exceptBind_ok h
        obtain ⟨⟨rest, p8⟩, h8, h⟩ := exceptBind_ok h
        simp only [Except.ok.injEq, Prod.mk.injEq] at h
        obtain ⟨hel, hq⟩ := h
        subst hq
        exact noLeGe_trans (noLeGe_match h1 (by decide) (by decide))
          (noLeGe_trans (noLeGe_match h2 (by decide) (by decide))
            (noLeGe_trans (ihExpr ts p2 (c, p3) h3)
              (noLeGe_trans (noLeGe_match h4 (by decide) (by decide))
                (noLeGe_trans (noLeGe_match h5 (by decide) (by decide))
                  (noLeGe_trans (ihSR ts p5 (body, p6) h6)
                    (noLeGe_trans (noLeGe_match h7 (by decide) (by decide))
                      (ihElif ts p7 (rest, p8) h8)))))))
      · rw [if_neg hc] at h
        simp only [Except.ok.injEq, Prod.mk.injEq] at h
        obtain ⟨hel, hq⟩ := h
        subst hq
        exact noLeGe_refl ts p
    · intro ts p r h
      obtain ⟨st, q⟩ := r
      rw [parseWhileStatement] at h
      obtain ⟨⟨t1, p1⟩, h1, h⟩ := exceptBind_ok h
      obtain ⟨⟨t2, p2⟩, h2, h⟩ := exceptBind_ok h
      obtain ⟨⟨cond, p3⟩, h3, h⟩ := exceptBind_ok h
      obtain ⟨⟨t4, p4⟩, h4, h⟩ := exceptBind_ok h
      obtain ⟨⟨t5, p5⟩, h5, h⟩ := exceptBind_ok h
      obtain ⟨⟨body, p6⟩, h6, h⟩ := exceptBind_ok h
      obtain ⟨⟨t7, p7⟩, h7, h⟩ := exceptBind_ok h
      simp only [Except.ok.injEq, Prod.mk.injEq] at h
      obtain ⟨hst, hq⟩ := h
      subst hq
      exact noLeGe_trans (noLeGe_match h1 (by decide) (by decide))
        (noLeGe_trans (noLeGe_match h2 (by decide) (by decide))
          (noLeGe_trans (ihExpr ts p2 (cond, p3) h3)
            (noLeGe_trans (noLeGe_match h4 (by decide) (by decide))
              (noLeGe_trans (noLeGe_match h5 (by decide) (by decide))
                (noLeGe_trans (ihSR ts p5 (body, p6) h6)
                  (noLeGe_match h7 (by decide) (by decide)))))))
    · intro ts p r h
      obtain ⟨st, q⟩ := r
      rw [parsePrintStatement] at h
      obtain ⟨⟨t1, p1⟩, h1, h⟩ := exceptBind_ok h
      obtain ⟨⟨t2, p2⟩, h2, h⟩ := exceptBind_ok h
      obtain ⟨⟨e, p3⟩, h3, h⟩ := exceptBind_ok h
      obtain ⟨⟨t4, p4⟩, h4, h⟩ := exceptBind_ok h
      obtain ⟨⟨t5, p5⟩, h5, h⟩ := exceptBind_ok h
      simp only [Except.ok.injEq, Prod.mk.injEq] at h
      obtain ⟨hst, hq⟩ := h
      subst hq
      exact noLeGe_trans (noLeGe_match h1 (by decide) (by decide))
        (noLeGe_trans (noLeGe_match h2 (by decide) (by decide))
          (noLeGe_trans (ihExpr ts p2 (e, p3) h3)
            (noLeGe_trans (noLeGe_match h4 (by decide) (by decide))
              (noLeGe_match h5 (by decide) (by decide)))))
    · intro ts p r h
      rw [parseExpression] at h
      exact ihCmp ts p r h
    · intro ts p r h
      rw [parseComparison] at h
      obtain ⟨⟨e1, p1⟩, h1, h⟩ := exceptBind_ok h
      exact noLeGe_trans (ihAdd ts p (e1, p1) h1) (ihCmpL ts p1 e1 r h)
    · intro ts p e r h
      obtain ⟨e2, q⟩ := r
      rw [parseComparisonLoop] at h
      by_cases hc : (peekTok ts p).type ∈ [TokenType.EQUALS, TokenType.NOT_EQUALS,
          TokenType.LESS_THAN, TokenType.GREATER_THAN]
      · rw [if_pos hc] at h
        obtain ⟨⟨r1, p2⟩, h1, h⟩ := exceptBind_ok h
        exact noLeGe_trans (noLeGe_step_of_mem hc (by decide) (by decide))
          (noLeGe_trans (ihAdd ts (p + 1) (r1, p2) h1) (ihCmpL ts p2 _ _ h))
      · rw [if_neg hc] at h
        simp only [Except.ok.injEq, Prod.mk.injEq] at h
        obtain ⟨he, hq⟩ := h
        subst hq
        exact noLeGe_refl ts p
    · intro ts p r h
      rw [parseAdditive] at h
      obtain ⟨⟨e1, p1⟩, h1, h⟩ := exceptBind_ok h
      exact noLeGe_trans (ihMul ts p (e1, p1) h1) (ihAddL ts p1 e1 r h)
    · intro ts p e r h
      obtain ⟨e2, q⟩ := r
      rw [parseAdditiveLoop] at h
      by_cases hc : (peekTok ts p).type ∈ [TokenType.PLUS, TokenType.MINUS]
      · rw [if_pos hc] at h
        obtain ⟨⟨r1, p2⟩, h1, h⟩ := exceptBind_ok h
        exact noLeGe_trans (noLeGe_step_of_mem hc (by decide) (by decide))
          (noLeGe_trans (ihMul ts (p + 1) (r1, p2) h1) (ihAddL ts p2 _ _ h))
      · rw [if_neg hc] at h
        simp only [Except.ok.injEq, Prod.mk.injEq] at h
        obtain ⟨he, hq⟩ := h
        subst hq
        exact noLeGe_refl ts p
    · intro ts p r h
      rw [parseMultiplicative] at h
      obtain ⟨⟨e1, p1⟩, h1, h⟩ := exceptBind_ok h
      exact noLeGe_trans (ihPrim ts p (e1, p1) h1) (ihMulL ts p1 e1 r h)
    · intro ts p e r h
      obtain ⟨e2, q⟩ := r
      rw [parseMultiplicativeLoop] at h
      by_cases hc : (peekTok ts p).type ∈ [TokenType.MULTIPLY, TokenType.DIVIDE]
      · rw [if_pos hc] at h
        obtain ⟨⟨r1, p2⟩, h1, h⟩ := exceptBind_ok h
        exact noLeGe_trans (noLeGe_step_of_mem hc (by decide) (by decide))
          (noLeGe_trans (ihPrim ts (p + 1) (r1, p2) h1) (ihMulL ts p2 _ _ h))
      · rw [if_neg hc] at h
        simp only [Except.ok.injEq, Prod.mk.injEq] at h
        obtain ⟨he, hq⟩ := h
        subst hq
        exact noLeGe_refl ts p
    · intro ts p r h
      obtain ⟨e2, q⟩ := r
      rw [parsePrimary] at h
      by_cases hc1 : (peekTok ts p).type ∈ [TokenType.INTEGER_LITERAL,
          TokenType.FLOAT_LITERAL]
      · rw [if_pos hc1] at h
        dsimp only at h
        simp only [Except.ok.injEq, Prod.mk.injEq] at h
        obtain ⟨he, hq⟩ := h
        subst hq
        exact noLeGe_step_of_mem hc1 (by decide) (by decide)
      · rw [if_neg hc1] at h
        by_cases hc2 : (peekTok ts p).type = TokenType.IDENTIFIER
        · rw [if_pos hc2] at h
          simp only [Except.ok.injEq, Prod.mk.injEq] at h
          obtain ⟨he, hq⟩ := h
          subst hq
          exact noLeGe_step_of_eq hc2 (by decide) (by decide)
        · rw [if_neg hc2] at h
          by_cases hc3 : (peekTok ts p).type = TokenType.LPAREN
          · rw [if_pos hc3] at h
            obtain ⟨⟨e1, p1⟩, h1, h⟩ := exceptBind_ok h
            obtain ⟨⟨t2, p2⟩, h2, h⟩ := exceptBind_ok h
            simp only [Except.ok.injEq, Prod.mk.injEq] at h
            obtain ⟨he, hq⟩ := h
            subst hq
            exact noLeGe_trans (noLeGe_step_of_eq hc3 (by decide) (by decide))
              (noLeGe_trans (ihExpr ts (p + 1) (e1, p1) h1)
                (noLeGe_match h2 (by decide) (by decide)))
          · rw [if_neg hc3] at h
            by_cases hc4 : (peekTok ts p).type ∈ [TokenType.PLUS, TokenType.MINUS]
            · rw [if_pos hc4] at h
              obtain ⟨⟨op1, p1⟩, h1, h⟩ := exceptBind_ok h
              simp only [Except.ok.injEq, Prod.mk.injEq] at h
              obtain ⟨he, hq⟩ := h
              subst hq
              exact noLeGe_trans (noLeGe_step_of_mem hc4 (by decide) (by decide))
                (ihPrim ts (p + 1) (op1, p1) h1)
            · rw [if_neg hc4] at h
              cases h

/-- Claim C7 (confirmed): the lexer produces `<=` and `>=` tokens
(`tokenize "<="` succeeds with a `LESS_THAN_OR_EQUAL` token), but the
parser's grammar never consumes them: any successfully tokenized list
containing a `<=` or `>=` token fails to parse, at every fuel. -/
theorem c7_le_ge_tokens_never_parse :
    tokenize "<=" = .ok [⟨.LESS_THAN_OR_EQUAL, "<=", 1, 1⟩, ⟨.EOF, "", 1, 3⟩] ∧
    (∀ src ts fuel prog, tokenize src = .ok ts →
      (∃ t ∈ ts, t.type = TokenType.LESS_THAN_OR_EQUAL ∨
        t.type = TokenType.GREATER_THAN_OR_EQUAL) →
      parseTokens fuel ts ≠ .ok prog) := by
  constructor
  · simp +decide [tokenize, tokenizeSteps, getNextToken, initLex, readIdentifier,
      readIdentAux, advance, readNumber, readNumberAux, skipWhitespace, skipComment,
      skipCommentAux, currentChar, peekChar, operatorLookup, keywordLookup, strLower,
      pyIsSpace]
  · intro src ts fuel prog htok hex hparse
    obtain ⟨t, htm, hty⟩ := hex
    unfold parseTokens at hparse
    cases hp : parseProgram fuel ts 0 with
    | error e =>
      rw [hp] at hparse
      cases hparse
    | ok pr =>
      obtain ⟨prog2, q⟩ := pr
      obtain ⟨⟨hle, hint⟩, heof⟩ := (parser_noLeGe fuel).1 ts 0 (prog2, q) hp
      obtain ⟨mid, lastTok, hts, hlast, hmid⟩ := tokenize_ok_structure src ts htok
      subst hts
      rcases List.mem_append.mp htm with hm | hm
      · obtain ⟨j, hj⟩ := List.mem_iff_get.mp hm
        have hpeek : peekTok (mid ++ [lastTok]) j.1 = t := by
          rw [peekTok, List.get?_append j.2, List.get?_eq_get j.2]
          simp only [Option.getD_some]
          exact hj
        have hq : mid.length ≤ q := by
          by_contra hqlt
          push_neg at hqlt
          have hg : peekTok (mid ++ [lastTok]) q = mid.get ⟨q, hqlt⟩ := by
            rw [peekTok, List.get?_append hqlt, List.get?_eq_get hqlt]
            rfl
          have hne := hmid (mid.get ⟨q, hqlt⟩) (List.get_mem mid q hqlt)
          rw [hg] at heof
          exact hne heof
        have hjq : j.1 < q := lt_of_lt_of_le j.2 hq
        have hnot := hint j.1 (by omega) hjq
        rw [hpeek] at hnot
        rcases hty with h1 | h1
        · exact hnot.1 h1
        · exact hnot.2 h1
      · rw [List.mem_singleton.mp hm] at hty
        rcases hty with h1 | h1 <;> rw [hlast] at h1 <;> cases h1

theorem c7_le_ge_tokens_never_parse_witness :
    tokenize "<=" = .ok [⟨.LESS_THAN_OR_EQUAL, "<=", 1, 1⟩, ⟨.EOF, "", 1, 3⟩] ∧
    (∃ t ∈ [(⟨.LESS_THAN_OR_EQUAL, "<=", 1, 1⟩ : Token), ⟨.EOF, "", 1, 3⟩],
      t.type = TokenType.LESS_THAN_OR_EQUAL ∨
        t.type = TokenType.GREATER_THAN_OR_EQUAL) ∧
    parseTokens 5 [⟨.LESS_THAN_OR_EQUAL, "<=", 1, 1⟩, ⟨.EOF, "", 1, 3⟩] ≠
      .ok ⟨[], []⟩ :=
  ⟨c7_le_ge_tokens_never_parse.1, by decide,
   c7_le_ge_tokens_never_parse.2 "<=" _ 5 ⟨[], []⟩ c7_le_ge_tokens_never_parse.1
     (by decide)⟩
